import Mathlib

/-!
Verification of the daily-report application (`daily_report_demo.py`,
`import_reports.py`) against its natural-language specification.

The development shallowly embeds the program's data model and operations:
Python strings are modelled as `List Char` (or Lean `String`), Python dicts
as association lists built by insert-or-overwrite (`dictInsert`), JSON
serialisation (`json.dumps` with `ensure_ascii=True` and default separators)
and deserialisation (`json.loads`) as an executable printer and a fueled
recursive-descent parser over character lists, and the SQLite `reports`
table as a list of rows.
-/

namespace DailyReport

/-- Python strings viewed as lists of Unicode scalar values. -/
abbrev Str := List Char

/-- Whitespace characters removed by Python `str.strip()` (the ASCII subset:
space, tab, newline, carriage return, vertical tab, form feed; `str.strip`
additionally strips rarer Unicode space characters, which never occur in
this application's data). -/
def pyIsSpace (c : Char) : Bool :=
  c == ' ' || c == '\t' || c == '\n' || c == '\r' || c.toNat == 11 || c.toNat == 12

/-- Python `str.strip()` on a character list. -/
def pyStripChars (s : Str) : Str :=
  ((s.dropWhile pyIsSpace).reverse.dropWhile pyIsSpace).reverse

/-- Python `str.strip()`. -/
def pyStrip (s : String) : String := String.mk (pyStripChars s.data)

/-- ASCII lowering of one character, as Python `str.lower()` acts on the
ASCII range (the only range exercised: the sentinel comparison is against
the ASCII literal `"date"`). -/
def asciiLowerChar (c : Char) : Char :=
  if 'A' ≤ c ∧ c ≤ 'Z' then Char.ofNat (c.toNat + 32) else c

/-- Python `str.lower()` restricted to ASCII case mapping. -/
def asciiLower (s : String) : String := String.mk (s.data.map asciiLowerChar)

/-- Insert-or-overwrite into an association list, mirroring Python dict
assignment `d[k] = v`: an existing key keeps its original position and gets
the new value; a new key is appended at the end (insertion order). -/
def dictInsert {κ β : Type} [DecidableEq κ] (m : List (κ × β)) (k : κ) (v : β) :
    List (κ × β) :=
  if k ∈ m.map Prod.fst then m.map (fun p => if p.1 = k then (p.1, v) else p)
  else m ++ [(k, v)]

/-- Build a Python dict from a pair sequence by successive assignment
(later duplicates overwrite earlier values, first position wins). -/
def dictOfPairs {κ β : Type} [DecidableEq κ] (ps : List (κ × β)) : List (κ × β) :=
  ps.foldl (fun m p => dictInsert m p.1 p.2) []

/-! ## JSON values, printing (`json.dumps`) and parsing (`json.loads`) -/

/-- JSON values as produced by Python's `json` module; numbers keep their
surface literal (no numeric value is ever consumed by this application). -/
inductive JVal where
  | jnull : JVal
  | jbool : Bool → JVal
  | jnum : Str → JVal
  | jstr : Str → JVal
  | jarr : List JVal → JVal
  | jobj : List (Str × JVal) → JVal

/-- Lowercase hexadecimal digit, as used by `json.dumps` in `\uXXXX` escapes. -/
def hexDigitChar (n : Nat) : Char :=
  if n < 10 then Char.ofNat (48 + n) else Char.ofNat (87 + n)

/-- A `\uXXXX` escape for one UTF-16 code unit. -/
def uEscape (n : Nat) : Str :=
  ['\\', 'u', hexDigitChar (n / 4096 % 16), hexDigitChar (n / 256 % 16),
   hexDigitChar (n / 16 % 16), hexDigitChar (n % 16)]

/-- How `json.dumps` (with its default `ensure_ascii=True`) renders one
character inside a string literal: `"` and `\` are backslash-escaped, the
five short escapes are used for backspace, tab, newline, form feed and
carriage return, other control characters and all non-ASCII characters
become `\uXXXX` escapes, astral characters become surrogate pairs. -/
def escapeChar (c : Char) : Str :=
  let n := c.toNat
  if c = '"' then ['\\', '"']
  else if c = '\\' then ['\\', '\\']
  else if n = 8 then ['\\', 'b']
  else if n = 9 then ['\\', 't']
  else if n = 10 then ['\\', 'n']
  else if n = 12 then ['\\', 'f']
  else if n = 13 then ['\\', 'r']
  else if n < 32 then uEscape n
  else if n ≤ 126 then [c]
  else if n < 65536 then uEscape n
  else uEscape (55296 + (n - 65536) / 1024) ++ uEscape (56320 + (n - 65536) % 1024)

/-- Escaped body of a JSON string literal. -/
def escBody : Str → Str
  | [] => []
  | c :: s => escapeChar c ++ escBody s

/-- A complete JSON string literal. -/
def printStr (s : Str) : Str := '"' :: (escBody s ++ ['"'])

mutual
/-- Text form of a JSON value as `json.dumps` emits it with the default
separators `", "` and `": "`. -/
def printJson : JVal → Str
  | .jnull => ['n', 'u', 'l', 'l']
  | .jbool true => ['t', 'r', 'u', 'e']
  | .jbool false => ['f', 'a', 'l', 's', 'e']
  | .jnum lit => lit
  | .jstr s => printStr s
  | .jarr [] => ['[', ']']
  | .jarr (v :: vs) => '[' :: (printJson v ++ printElems vs) ++ [']']
  | .jobj [] => ['{', '}']
  | .jobj (m :: ms) => '{' :: (printMember m ++ printMembers ms) ++ ['}']

/-- Remaining array elements, each preceded by the `", "` separator. -/
def printElems : List JVal → Str
  | [] => []
  | v :: vs => ',' :: ' ' :: (printJson v ++ printElems vs)

/-- One object member, `"key": value`. -/
def printMember : Str × JVal → Str
  | (k, v) => printStr k ++ ':' :: ' ' :: printJson v

/-- Remaining object members, each preceded by the `", "` separator. -/
def printMembers : List (Str × JVal) → Str
  | [] => []
  | m :: ms => ',' :: ' ' :: (printMember m ++ printMembers ms)
end

/-- JSON insignificant whitespace. -/
def isJsonSpace (c : Char) : Bool :=
  c == ' ' || c == '\t' || c == '\n' || c == '\r'

/-- Skip insignificant whitespace. -/
def skipSpaces : Str → Str
  | [] => []
  | c :: rest => if isJsonSpace c then skipSpaces rest else c :: rest

/-- Value of one hexadecimal digit (`json.loads` accepts both cases). -/
def hexVal (c : Char) : Option Nat :=
  if '0' ≤ c ∧ c ≤ '9' then some (c.toNat - 48)
  else if 'a' ≤ c ∧ c ≤ 'f' then some (c.toNat - 87)
  else if 'A' ≤ c ∧ c ≤ 'F' then some (c.toNat - 55)
  else none

/-- Value of a four-digit hexadecimal code unit. -/
def hex4 (a b c d : Char) : Option Nat := do
  let va ← hexVal a
  let vb ← hexVal b
  let vc ← hexVal c
  let vd ← hexVal d
  some (va * 4096 + vb * 256 + vc * 16 + vd)

/-- The single-character JSON escapes. -/
def unescapeChar (c : Char) : Option Char :=
  if c = '"' then some '"'
  else if c = '\\' then some '\\'
  else if c = '/' then some '/'
  else if c = 'b' then some (Char.ofNat 8)
  else if c = 'f' then some (Char.ofNat 12)
  else if c = 'n' then some '\n'
  else if c = 'r' then some '\r'
  else if c = 't' then some '\t'
  else none

/-- Decode one character of a JSON string literal body: a literal
character, a single-character escape, a `\uXXXX` escape, or a surrogate
pair combining into one astral character.  A high surrogate must be
followed by a low surrogate (Python additionally tolerates lone
surrogates, which `json.dumps` never emits for well-formed strings).
Returns the decoded character and the remaining input. -/
def decodeOneChar : Str → Option (Char × Str)
  | [] => none
  | c :: rest =>
    if c = '\\' then
      match rest with
      | [] => none
      | e :: rest1 =>
        if e = 'u' then
          match rest1 with
          | a :: b :: c2 :: d :: rest2 =>
            (match hex4 a b c2 d with
             | none => none
             | some n =>
               if 55296 ≤ n ∧ n < 56320 then
                 match rest2 with
                 | '\\' :: 'u' :: a2 :: b2 :: c3 :: d2 :: rest3 =>
                   (match hex4 a2 b2 c3 d2 with
                    | none => none
                    | some m =>
                      if 56320 ≤ m ∧ m < 57344 then
                        some (Char.ofNat (65536 + (n - 55296) * 1024 + (m - 56320)), rest3)
                      else none)
                 | _ => none
               else if 56320 ≤ n ∧ n < 57344 then none
               else some (Char.ofNat n, rest2))
          | _ => none
        else (unescapeChar e).map (fun c2 => (c2, rest1))
    else some (c, rest)

/-- The string-body parsing loop: stop at an unescaped closing quote,
otherwise decode one character and continue.  The fuel only bounds the
loop; every decoded character consumes at least one input character, so
the input length is always enough fuel. -/
def parseStrBodyGo : Nat → Str → Option (Str × Str)
  | 0, _ => none
  | Nat.succ _, [] => none
  | Nat.succ fuel, c :: rest =>
    if c = '"' then some ([], rest)
    else
      match decodeOneChar (c :: rest) with
      | none => none
      | some (ch, rest2) =>
        match parseStrBodyGo fuel rest2 with
        | none => none
        | some (s, r) => some (ch :: s, r)

/-- Parse the body of a JSON string literal (the opening quote already
consumed), returning the decoded string and the remaining input. -/
def parseStrBody (l : Str) : Option (Str × Str) := parseStrBodyGo l.length l

/-- Parse a JSON number literal, keeping its surface text (sign, integer
part, optional fraction, optional exponent; the stricter no-leading-zero
rule of the JSON grammar is not enforced, which only widens the success set
on inputs this application never stores). -/
def parseNumber (s : Str) : Option (Str × Str) :=
  let signAndRest : Str × Str :=
    match s with
    | '-' :: r => (['-'], r)
    | _ => ([], s)
  let sign := signAndRest.1
  let s1 := signAndRest.2
  let ip := s1.takeWhile Char.isDigit
  let s2 := s1.dropWhile Char.isDigit
  if ip.isEmpty then none
  else
    let fracPart : Option (Str × Str) :=
      match s2 with
      | '.' :: r =>
          let fp := r.takeWhile Char.isDigit
          if fp.isEmpty then none else some ('.' :: fp, r.dropWhile Char.isDigit)
      | _ => some ([], s2)
    match fracPart with
    | none => none
    | some (fracLit, s3) =>
      let expPart : Option (Str × Str) :=
        match s3 with
        | e :: r =>
            if e == 'e' || e == 'E' then
              let esAndRest : Str × Str :=
                match r with
                | '+' :: r2 => (['+'], r2)
                | '-' :: r2 => (['-'], r2)
                | _ => ([], r)
              let ep := esAndRest.2.takeWhile Char.isDigit
              if ep.isEmpty then none
              else some (e :: esAndRest.1 ++ ep, esAndRest.2.dropWhile Char.isDigit)
            else some ([], s3)
        | [] => some ([], s3)
      match expPart with
      | none => none
      | some (expLit, s4) => some (sign ++ ip ++ fracLit ++ expLit, s4)

mutual
/-- Fueled recursive-descent JSON value parser (`json.loads`).  The fuel
only bounds recursion depth and loop length; `loads` supplies more fuel
than any input can consume. Object members are folded through `dictOfPairs`,
mirroring Python's construction of a dict (duplicate keys: last value
wins, first position kept). -/
def parseVal : Nat → Str → Option (JVal × Str)
  | 0, _ => none
  | Nat.succ fuel, input =>
    match skipSpaces input with
    | 'n' :: 'u' :: 'l' :: 'l' :: rest => some (.jnull, rest)
    | 't' :: 'r' :: 'u' :: 'e' :: rest => some (.jbool true, rest)
    | 'f' :: 'a' :: 'l' :: 's' :: 'e' :: rest => some (.jbool false, rest)
    | '"' :: rest => (parseStrBody rest).map (fun p => (.jstr p.1, p.2))
    | '[' :: rest =>
        (match skipSpaces rest with
         | ']' :: rest2 => some (.jarr [], rest2)
         | other => (parseElems fuel other).map (fun p => (.jarr p.1, p.2)))
    | '{' :: rest =>
        (match skipSpaces rest with
         | '}' :: rest2 => some (.jobj [], rest2)
         | other => (parseMembers fuel other).map (fun p => (.jobj (dictOfPairs p.1), p.2)))
    | other => (parseNumber other).map (fun p => (.jnum p.1, p.2))

/-- Parse one or more comma-separated array elements up to the closing
bracket. -/
def parseElems : Nat → Str → Option (List JVal × Str)
  | 0, _ => none
  | Nat.succ fuel, input => do
    let (v, r) ← parseVal fuel input
    match skipSpaces r with
    | ',' :: r2 => (parseElems fuel r2).map (fun p => (v :: p.1, p.2))
    | ']' :: r2 => some ([v], r2)
    | _ => none

/-- Parse one or more comma-separated object members up to the closing
brace. -/
def parseMembers : Nat → Str → Option (List (Str × JVal) × Str)
  | 0, _ => none
  | Nat.succ fuel, input =>
    match skipSpaces input with
    | '"' :: r => do
        let (k, r1) ← parseStrBody r
        match skipSpaces r1 with
        | ':' :: r2 => do
            let (v, r3) ← parseVal fuel r2
            match skipSpaces r3 with
            | ',' :: r4 => (parseMembers fuel r4).map (fun p => ((k, v) :: p.1, p.2))
            | '}' :: r4 => some ([(k, v)], r4)
            | _ => none
        | _ => none
    | _ => none
end

/-- Python `json.loads`: parse one JSON value and require that nothing but
whitespace follows; any failure raises (here: `none`). -/
def loads (s : String) : Option JVal :=
  match parseVal (2 * s.data.length + 2) s.data with
  | some (v, rest) => if skipSpaces rest = [] then some v else none
  | none => none

/-- Python `json.dumps` with its default arguments. -/
def dumps (v : JVal) : String := String.mk (printJson v)

/-- Indentation prefix used by `json.dumps(..., indent=1)`. -/
def spaces (n : Nat) : Str := List.replicate n ' '

mutual
/-- Text form of a JSON value as `json.dumps(obj, indent=1)` emits it
(newline plus one extra space per nesting level; with an indent the item
separator is a bare comma and the key separator stays `": "`). -/
def printIndent : Nat → JVal → Str
  | _, .jnull => ['n', 'u', 'l', 'l']
  | _, .jbool true => ['t', 'r', 'u', 'e']
  | _, .jbool false => ['f', 'a', 'l', 's', 'e']
  | _, .jnum lit => lit
  | _, .jstr s => printStr s
  | _, .jarr [] => ['[', ']']
  | lvl, .jarr (v :: vs) =>
      '[' :: '\n' :: (spaces (lvl + 1) ++ printIndent (lvl + 1) v ++
        printIndentElems (lvl + 1) vs) ++ '\n' :: spaces lvl ++ [']']
  | _, .jobj [] => ['{', '}']
  | lvl, .jobj (m :: ms) =>
      '{' :: '\n' :: (spaces (lvl + 1) ++ printIndentMember (lvl + 1) m ++
        printIndentMembers (lvl + 1) ms) ++ '\n' :: spaces lvl ++ ['}']

/-- Remaining indented array elements. -/
def printIndentElems : Nat → List JVal → Str
  | _, [] => []
  | lvl, v :: vs => ',' :: '\n' :: (spaces lvl ++ printIndent lvl v ++ printIndentElems lvl vs)

/-- One indented object member. -/
def printIndentMember : Nat → Str × JVal → Str
  | lvl, (k, v) => printStr k ++ ':' :: ' ' :: printIndent lvl v

/-- Remaining indented object members. -/
def printIndentMembers : Nat → List (Str × JVal) → Str
  | _, [] => []
  | lvl, m :: ms => ',' :: '\n' :: (spaces lvl ++ printIndentMember lvl m ++ printIndentMembers lvl ms)
end

/-- Python `json.dumps(obj, indent=1)`. -/
def dumpsIndent1 (v : JVal) : String := String.mk (printIndent 0 v)

/-! ## Python `repr` of strings and dicts (`str(incomplete)`) -/

/-- Python `", ".join(...)`. -/
def joinComma : List String → String
  | [] => ""
  | [x] => x
  | x :: xs => x ++ ", " ++ joinComma xs

/-- Quote character chosen by Python `repr` for a string: single quotes
unless the string contains a single quote and no double quote. -/
def reprQuote (s : Str) : Char :=
  if '\'' ∈ s ∧ ¬ '"' ∈ s then '"' else '\''

/-- Python `repr` escaping of one character inside a string literal quoted
by `q`: backslash and the quote character are backslash-escaped, newline,
carriage return and tab use short escapes, other ASCII control characters
and DEL become `\xXX`.  (CPython additionally escapes non-printable
non-ASCII characters; the model keeps characters at or above `0x80`
literal, a corner no stored value reaches and no theorem depends on.) -/
def reprEscapeChar (q c : Char) : Str :=
  if c = '\\' then ['\\', '\\']
  else if c = q then ['\\', q]
  else if c.toNat = 10 then ['\\', 'n']
  else if c.toNat = 13 then ['\\', 'r']
  else if c.toNat = 9 then ['\\', 't']
  else if c.toNat < 32 ∨ c.toNat = 127 then
    ['\\', 'x', hexDigitChar (c.toNat / 16 % 16), hexDigitChar (c.toNat % 16)]
  else [c]

/-- Escaped body of a Python string `repr`. -/
def reprBody (q : Char) : Str → Str
  | [] => []
  | c :: s => reprEscapeChar q c ++ reprBody q s

/-- Python `repr` of a string. -/
def pyReprStr (s : String) : String :=
  let q := reprQuote s.data
  String.mk (q :: reprBody q s.data ++ [q])

/-- Python `str` (equals `repr`) of a dict mapping strings to strings:
`{'k': 'v', ...}` in insertion order. -/
def pyReprStrDict (m : List (String × String)) : String :=
  "\x7b" ++ joinComma (m.map (fun p => pyReprStr p.1 ++ ": " ++ pyReprStr p.2)) ++ "\x7d"

mutual
/-- Python `repr` of a value decoded from JSON (`None`, `True`/`False`,
number literal, quoted string, list, dict). -/
def pyReprJVal : JVal → String
  | .jnull => "None"
  | .jbool true => "True"
  | .jbool false => "False"
  | .jnum lit => String.mk lit
  | .jstr s => pyReprStr (String.mk s)
  | .jarr vs => "[" ++ joinComma (pyReprJList vs) ++ "]"
  | .jobj ms => "\x7b" ++ joinComma (pyReprJMembers ms) ++ "\x7d"

/-- The element `repr`s of a decoded list. -/
def pyReprJList : List JVal → List String
  | [] => []
  | v :: vs => pyReprJVal v :: pyReprJList vs

/-- The member `repr`s of a decoded dict. -/
def pyReprJMembers : List (Str × JVal) → List String
  | [] => []
  | (k, v) :: ms => (pyReprStr (String.mk k) ++ ": " ++ pyReprJVal v) :: pyReprJMembers ms
end

/-- Python `str` of a value decoded from JSON, as an f-string interpolates
it: strings appear verbatim, everything else through `repr`.  (`str` of a
parsed number is approximated by its literal; no stored value is numeric.) -/
def pyStrJVal : JVal → String
  | .jstr s => String.mk s
  | v => pyReprJVal v

/-! ## Calendar: ISO weeks, weekday names, `%Y-%m-%d` formatting -/

/-- Gregorian leap year. -/
def isLeap (y : Nat) : Bool := (y % 4 == 0 && y % 100 != 0) || y % 400 == 0

/-- Days in a month of the proleptic Gregorian calendar. -/
def daysInMonth (y m : Nat) : Nat :=
  if m = 2 then (if isLeap y then 29 else 28)
  else if m = 4 ∨ m = 6 ∨ m = 9 ∨ m = 11 then 30
  else 31

/-- Days in the months strictly before month `m`. -/
def daysBeforeMonth (y m : Nat) : Nat :=
  (List.range' 1 (m - 1)).foldl (fun a mm => a + daysInMonth y mm) 0

/-- Ordinal day of the year (January 1st is 1). -/
def ordinalDay (y m d : Nat) : Nat := daysBeforeMonth y m + d

/-- Days in the years strictly before year `y`. -/
def daysBeforeYear (y : Nat) : Nat :=
  365 * (y - 1) + (y - 1) / 4 - (y - 1) / 100 + (y - 1) / 400

/-- Proleptic Gregorian day number; day 1 is 0001-01-01, a Monday. -/
def dayNumber (y m d : Nat) : Nat := daysBeforeYear y + ordinalDay y m d

/-- ISO weekday: 1 = Monday through 7 = Sunday. -/
def weekdayIso (y m d : Nat) : Nat := (dayNumber y m d - 1) % 7 + 1

/-- Number of ISO weeks in a year: 53 exactly when January 1st or
December 31st falls on a Thursday. -/
def isoWeeksInYear (y : Nat) : Nat :=
  if weekdayIso y 1 1 = 4 ∨ weekdayIso y 12 31 = 4 then 53 else 52

/-- ISO-8601 (year, week) pair of a date, as computed by
`pandas.DatetimeIndex.isocalendar()`. -/
def isoYearWeek (y m d : Nat) : Nat × Nat :=
  let w := (ordinalDay y m d + 10 - weekdayIso y m d) / 7
  if w = 0 then (y - 1, isoWeeksInYear (y - 1))
  else if isoWeeksInYear y < w then (y + 1, 1)
  else (y, w)

/-- ISO week number of a date (`.isocalendar().week`, line 298). -/
def isoWeek (y m d : Nat) : Nat := (isoYearWeek y m d).2

/-- Weekday display name (`strftime("%A")`). -/
def weekdayName : Nat → String
  | 1 => "Monday"
  | 2 => "Tuesday"
  | 3 => "Wednesday"
  | 4 => "Thursday"
  | 5 => "Friday"
  | 6 => "Saturday"
  | 7 => "Sunday"
  | _ => ""

/-- Zero-padded two-digit decimal. -/
def pad2 (n : Nat) : String := if n < 10 then "0" ++ toString n else toString n

/-- Zero-padded four-digit decimal. -/
def pad4 (n : Nat) : String :=
  if n < 10 then "000" ++ toString n
  else if n < 100 then "00" ++ toString n
  else if n < 1000 then "0" ++ toString n
  else toString n

/-- `strftime("%Y-%m-%d")` on a (year, month, day) triple. -/
def formatDate : Nat × Nat × Nat → String
  | (y, m, d) => pad4 y ++ "-" ++ pad2 m ++ "-" ++ pad2 d

/-- Decimal value of a non-empty all-digit character list. -/
def decDigits (s : Str) : Option Nat :=
  if s ≠ [] ∧ s.all Char.isDigit then
    some (s.foldl (fun a c => a * 10 + (c.toNat - 48)) 0)
  else none

/-- Parse a `%Y-%m-%d` date string into a (year, month, day) triple, the
format every stored `date` value uses (`pd.to_datetime` accepts further
formats and raises on garbage; `none` models the value not being a valid
date of this format). -/
def parseIsoDate (s : String) : Option (Nat × Nat × Nat) :=
  match s.data.splitOn '-' with
  | [ys, ms, ds] => do
      let y ← decDigits ys
      let m ← decDigits ms
      let d ← decDigits ds
      if 1 ≤ y ∧ 1 ≤ m ∧ m ≤ 12 ∧ 1 ≤ d ∧ d ≤ daysInMonth y m then some (y, m, d)
      else none
  | _ => none

/-! ## The record store and the submission path (tab 1) -/

/-- One row of the SQLite `reports` table.  The `subtasks` column may be
absent (`NULL`) on rows predating the schema migration, hence `Option`. -/
structure Row where
  date : String
  day : String
  name : String
  completed_tasks : String
  incomplete_tasks : String
  organizing_details : String
  notes : String
  subtasks : Option String
deriving DecidableEq

/-- The static weekday schedule (`SCHEDULE`). -/
def SCHEDULE : List (String × List String) :=
  [("Monday", ["Stock Screens", "Screen Mesh", "Spectra", "LTC", "Organizing Materials"]),
   ("Tuesday", ["Vision", "RPM Punched", "RPM Stainless", "Organizing Materials"]),
   ("Wednesday", ["SIL Plastic", "SIL Fastners", "Schelgal", "Shop Supplies", "Organizing Materials"]),
   ("Thursday", ["Amesbury Truth", "Twin/Multipoint Keepers", "Stock Screens", "Foot Locks", "Organizing Materials"]),
   ("Friday", ["Mini Blinds", "Foam Concept", "Cardboard", "Organizing Materials"])]

/-- The fixed checklist of four sub-item labels (`default_subs`). -/
def defaultSubs : List String :=
  ["Counted and recorded on Excel",
   "Sent file to managers via email",
   "Provided physical copies to managers",
   "Arranged material in its location"]

/-- The fixed reporter identity. -/
def reporterName : String := "Simarjit Kaur"

/-- Raw form input for one task: the Yes/No radio choice, the checkbox
state per sub-item label, and the free-text reason field. -/
structure TaskInput where
  done : Bool
  subChecked : String → Bool
  reason : String

/-- One iteration of the per-task form loop (lines 197-225), transforming
the accumulated `(completed, incomplete, task_subtasks)` state: a
completed task is appended to `completed` and its checked sub-items
recorded in `task_subtasks`; a reason is recorded in `incomplete` for a
task not done, and for a completed task whose four sub-item checkboxes
are not all set. -/
def processStep (inp : String → TaskInput)
    (acc : List String × List (String × String) × List (String × List String))
    (task : String) :
    List String × List (String × String) × List (String × List String) :=
  if (inp task).done then
    (acc.1 ++ [task],
     (if (defaultSubs.map (inp task).subChecked).all id then acc.2.1
      else dictInsert acc.2.1 task (inp task).reason),
     dictInsert acc.2.2 task (defaultSubs.filter (inp task).subChecked))
  else (acc.1, dictInsert acc.2.1 task (inp task).reason, acc.2.2)

/-- The whole per-task form loop over a day's scheduled task list. -/
def processTasks (tasks : List String) (inp : String → TaskInput) :
    List String × List (String × String) × List (String × List String) :=
  tasks.foldl (processStep inp) ([], [], [])

/-- Outcome reported by the submit handler: one of the two validation
error banners, or the success banner after the insert. -/
inductive SubmitOutcome where
  | missingRequired : SubmitOutcome
  | missingReason : SubmitOutcome
  | saved : SubmitOutcome
deriving DecidableEq

/-- A string field fails the required-fields check when blank. -/
def strFieldInvalid (s : String) : Bool := pyStrip s == ""

/-- The required-fields condition of lines 231-235.  Of the five entries of
`required_fields`, `date_sel` is a `date` object (neither `str`, `list`
nor `dict`, so never invalid), `day_name` and the literal reporter name
are strings checked for blankness, `completed` is a list checked for
emptiness, and `incomplete` is a dict whose condition
`not f and f != {}` is identically false. -/
def requiredInvalid (dayName : String) (completed : List String) : Bool :=
  strFieldInvalid dayName || strFieldInvalid reporterName || completed.isEmpty

/-- The reason check of line 238: some incomplete entry has an empty or
whitespace-only reason. -/
def hasBlankReason (incomplete : List (String × String)) : Bool :=
  incomplete.any (fun p => pyStrip p.2 == "")

/-- The `subtasks` dict as a JSON value (`json.dumps(task_subtasks)`). -/
def subtasksToJson (m : List (String × List String)) : JVal :=
  .jobj (m.map (fun p => (p.1.data, JVal.jarr (p.2.map (fun s => JVal.jstr s.data)))))

/-- The stored text of the `subtasks` column. -/
def encodeSubtasks (m : List (String × List String)) : String :=
  dumps (subtasksToJson m)

/-- One `subtasks` dict entry as a JSON object member. -/
def subEntry (e : Str × List Str) : Str × JVal := (e.1, .jarr (e.2.map .jstr))

/-- Parser fuel sufficient for one `subtasks` object: each member costs
its item count plus a constant. -/
def subBudget (es : List (Str × List Str)) : Nat := (es.map (fun e => e.2.length + 4)).sum

/-- View a decoded JSON value as a string. -/
def jstrAsString : JVal → Option String
  | .jstr cs => some (String.mk cs)
  | _ => none

/-- View a decoded JSON value as a list of strings. -/
def jarrAsStrings : JVal → Option (List String)
  | .jarr items => items.mapM jstrAsString
  | _ => none

/-- View a decoded JSON value as a mapping from task name to sub-item
list. -/
def jobjAsSubtasks : JVal → Option (List (String × List String))
  | .jobj ms => ms.mapM (fun p => (jarrAsStrings p.2).map (fun l => (String.mk p.1, l)))
  | _ => none

/-- Reading a stored `subtasks` text back into a mapping from task name to
ordered sub-item list: `json.loads` followed by viewing the decoded value
as a dict of string lists. -/
def decodeSubtasks (s : String) : Option (List (String × List String)) :=
  (loads s).bind jobjAsSubtasks

/-- The `incomplete_tasks` column value (line 250): the sentinel for an
empty dict, otherwise Python `str()` of the dict. -/
def incompleteField (incomplete : List (String × String)) : String :=
  if incomplete.isEmpty then "All completed" else pyReprStrDict incomplete

/-- The row the submit handler inserts (lines 243-254). -/
def mkRow (dateSel : Nat × Nat × Nat) (dayName : String) (completed : List String)
    (incomplete : List (String × String)) (taskSubtasks : List (String × List String))
    (orgDetails notes : String) : Row :=
  { date := formatDate dateSel
    day := dayName
    name := reporterName
    completed_tasks := joinComma completed
    incomplete_tasks := incompleteField incomplete
    organizing_details := orgDetails
    notes := notes
    subtasks := some (encodeSubtasks taskSubtasks) }

/-- The submit handler (lines 229-256): the required-fields gate, then the
blank-reason gate, and only past both the insert of exactly one row.  The
returned store is the `reports` table content after the operation. -/
def submitReport (store : List Row) (dateSel : Nat × Nat × Nat) (dayName : String)
    (completed : List String) (incomplete : List (String × String))
    (taskSubtasks : List (String × List String)) (orgDetails notes : String) :
    SubmitOutcome × List Row :=
  if requiredInvalid dayName completed then (.missingRequired, store)
  else if hasBlankReason incomplete then (.missingReason, store)
  else (.saved, store ++ [mkRow dateSel dayName completed incomplete taskSubtasks orgDetails notes])

/-- Whether a row matches the (date, day, name) natural-key triple. -/
def rowMatches (d dy n : String) (r : Row) : Bool :=
  r.date == d && r.day == dy && r.name == n

/-- `DELETE FROM reports WHERE date = ? AND day = ? AND name = ?`
(lines 355-358), processing the stored rows in order. -/
def deleteWhere (d dy n : String) : List Row → List Row
  | [] => []
  | r :: rs => if rowMatches d dy n r then deleteWhere d dy n rs else r :: deleteWhere d dy n rs

/-! ## Weekly view (tab 2): subtasks prettying, Excel export, PDF trace -/

/-- `safe_json_pretty` (lines 301-308): substitute `"{}"` for a missing or
empty value, pretty-print a decodable value with `indent=1`, and fall back
to `"{}"` when decoding fails. -/
def safeJsonPretty (x : Option String) : String :=
  let val : String :=
    match x with
    | none => "{}"
    | some s => if s = "" then "{}" else s
  match loads val with
  | some v => dumpsIndent1 v
  | none => "{}"

/-- Python's truthiness fallback `x or dflt` on an optional string. -/
def pyOr (x : Option String) (dflt : String) : String :=
  match x with
  | none => dflt
  | some s => if s = "" then dflt else s

/-- One row of the DataFrame `generate_pdf` iterates: the stored text
columns plus the derived `Date` (`NaT` modelled as `none`) and `Day`
columns.  `Option` on a text column models a missing (`NULL`/`NaN`)
value. -/
structure PdfRow where
  Date : Option (Nat × Nat × Nat)
  Day : String
  completed_tasks : Option String
  subtasks : Option String
  organizing_details : Option String
  incomplete_tasks : Option String
  notes : Option String
deriving DecidableEq

/-- The text- and divider-bearing operations `generate_pdf` performs, in
emission order.  Font selection, spacing (`pdf.ln`, the empty
ten-unit indent cell before sub-item bullets) and page breaks are omitted:
they carry neither text nor a divider.  A `line` records the draw colour
set immediately before it (lines 139-141); `pageFooter` is the page-number
footer cell. -/
inductive PdfElem where
  | cell : String → PdfElem
  | multiCell : String → PdfElem
  | line : Nat → Nat → Nat → PdfElem
  | pageFooter : PdfElem
deriving DecidableEq

/-- `completed_tasks` column split on commas, entries stripped, blanks
dropped (line 93). -/
def splitCompleted (s : String) : List String :=
  ((s.data.splitOn ',').map (fun cs => String.mk (pyStripChars cs))).filter (fun t => t ≠ "")

/-- The `subs` value of lines 94-97: `json.loads` of the `subtasks` cell,
with any failure (including a missing value, where `json.loads(None)`
raises `TypeError`) replaced by the empty dict. -/
def pdfSubs (x : Option String) : JVal :=
  match x with
  | none => .jobj []
  | some s => (loads s).getD (.jobj [])

/-- Sub-items shown under one completed task (line 101): the entry of the
decoded dict, defaulting to the empty list for a missing key or a non-dict
value.  (A non-list entry would be iterated element-wise by Python; rows
written by the app always store lists here.) -/
def subsItems (subs : JVal) (task : String) : List JVal :=
  match subs with
  | .jobj ms =>
      match ms.lookup task.data with
      | some (.jarr items) => items
      | _ => []
  | _ => []

/-- The "Incomplete Tasks" block body (lines 120-128): decodable non-empty
dict renders one `- task: reason` line per entry, anything else renders
the placeholder dash. -/
def incompleteLines (x : Option String) : List PdfElem :=
  match x with
  | none => [PdfElem.multiCell ("-")]
  | some s =>
    match loads s with
    | some (.jobj ms) =>
        if ms.isEmpty then [PdfElem.multiCell ("-")]
        else ms.map (fun p => PdfElem.multiCell ("- " ++ String.mk p.1 ++ ": " ++ pyStrJVal p.2))
    | some _ => [PdfElem.multiCell ("-")]
    | none => [PdfElem.multiCell ("-")]

/-- The per-report body of `generate_pdf` (lines 78-142): a row with a
missing date is skipped; otherwise the date header, the completed-tasks
block with sub-item bullets, organising details, incomplete tasks, notes,
and the divider drawn with draw colour (150, 150, 150). -/
def renderRow (r : PdfRow) : List PdfElem :=
  match r.Date with
  | none => []
  | some ymd =>
    let completed := splitCompleted (pyOr r.completed_tasks "")
    let subs := pdfSubs r.subtasks
    [PdfElem.cell (formatDate ymd ++ " (" ++ r.Day ++ ")"),
     PdfElem.cell ("Completed Tasks:")]
    ++ completed.flatMap (fun task =>
         PdfElem.cell ("✔ " ++ task) ::
         (subsItems subs task).map (fun item => PdfElem.multiCell ("• " ++ pyStrJVal item)))
    ++ (if completed.isEmpty then [PdfElem.cell ("-")] else [])
    ++ [PdfElem.cell ("Organizing Details:"),
        PdfElem.multiCell (pyOr r.organizing_details "-"),
        PdfElem.cell ("Incomplete Tasks:")]
    ++ incompleteLines r.incomplete_tasks
    ++ [PdfElem.cell ("Notes:"),
        PdfElem.multiCell (pyOr r.notes "-"),
        PdfElem.line 150 150 150]

/-- `generate_pdf` (lines 64-149) as the sequence of text and divider
operations it emits: the title cell, each row's body in order, and the
page footer. -/
def generatePdf (rows : List PdfRow) (weekNo : Nat) : List PdfElem :=
  let titleWeek := if weekNo = 0 then "All Weeks" else "Week " ++ toString weekNo
  PdfElem.cell ("Simarjit Kaur - Weekly Report (" ++ titleWeek ++ ")") ::
    rows.flatMap renderRow ++ [PdfElem.pageFooter]

/-- Whether a trace element is a drawn divider line. -/
def isLineElem : PdfElem → Bool
  | .line _ _ _ => true
  | _ => false

/-- The divider lines of a trace, in order. -/
def traceLines (es : List PdfElem) : List PdfElem := es.filter isLineElem

/-- The weekly view's row preparation (lines 296-310): parse the stored
date, derive the weekday name, and replace the `subtasks` column by its
`safe_json_pretty` rendering. -/
def toPdfRow (r : Row) : PdfRow :=
  let dt := parseIsoDate r.date
  { Date := dt
    Day := match dt with
           | some ymd => weekdayName (weekdayIso ymd.1 ymd.2.1 ymd.2.2)
           | none => ""
    completed_tasks := some r.completed_tasks
    subtasks := some (safeJsonPretty r.subtasks)
    organizing_details := some r.organizing_details
    incomplete_tasks := some r.incomplete_tasks
    notes := some r.notes }

/-- The `Week` column (lines 297-298): ISO week number of the parsed
date. -/
def rowWeek (r : Row) : Option Nat :=
  (parseIsoDate r.date).map (fun ymd => isoWeek ymd.1 ymd.2.1 ymd.2.2)

/-- The Excel download (lines 363-367): the whole prepared DataFrame, with
the `Week` column dropped, written as the single sheet `All_Reports`. -/
def excelExport (rows : List Row) : List (String × List PdfRow) :=
  [("All_Reports", rows.map toPdfRow)]

/-- The PDF download of the weekly view (line 376): `generate_pdf` over
the whole prepared DataFrame with the week label 0. -/
def weeklyPdf (rows : List Row) : List PdfElem :=
  generatePdf (rows.map toPdfRow) 0

/-- `encode("ascii", "ignore")`: keep exactly the ASCII code points.
`clean_text` (lines 56-61) is this filter applied after NFKD
normalisation (the normalisation step maps some non-ASCII characters to
ASCII sequences before the rest are dropped; the filter alone already
guarantees an all-ASCII result, which is the property used here). -/
def asciiIgnore (s : Str) : Str := s.filter (fun c => c.toNat < 128)

/-- Whether a string is pure ASCII (the encoding `clean_text` targets; the
PDF's own target encoding latin-1 is the superset of code points below
256). -/
def isAsciiStr (s : String) : Bool := s.data.all (fun c => c.toNat < 128)

/-! ## Bulk import (`import_reports.py`, `load_vertical_sheet`) -/

/-- One row of a vertical Field/Value sheet.  `value = none` models a
missing (`NaN`) Value cell, which the loader normalises to the empty
string; a present value is modelled by its `str()` text. -/
structure SheetRowIn where
  field : String
  value : Option String
deriving DecidableEq

/-- The normalised value of a sheet row (lines 17-21). -/
def sheetValue (v : Option String) : String := v.getD ""

/-- Whether a row's Field is the record sentinel: equal to `"date"` after
stripping and lowercasing (line 24). -/
def isDateRow (row : SheetRowIn) : Bool := asciiLower (pyStrip row.field) == "date"

/-- The assignment `current[field] = value` (line 30): dict insertion
keyed by the stripped field. -/
def lvsStep (current : List (String × String)) (row : SheetRowIn) : List (String × String) :=
  dictInsert current (pyStrip row.field) (sheetValue row.value)

/-- The loop of `load_vertical_sheet` (lines 11-34): on a sentinel row the
non-empty record in progress is flushed and a fresh one started; every row
assigns its field into the record in progress; a final non-empty record is
appended after the last row. -/
def lvsGo (records : List (List (String × String))) (current : List (String × String)) :
    List SheetRowIn → List (List (String × String))
  | [] => if current.isEmpty then records else records ++ [current]
  | row :: rest =>
      if isDateRow row then
        lvsGo (if current.isEmpty then records else records ++ [current]) (lvsStep [] row) rest
      else lvsGo records (lvsStep current row) rest

/-- `load_vertical_sheet`: one record dict per vertical block. -/
def loadVerticalSheet (rows : List SheetRowIn) : List (List (String × String)) :=
  lvsGo [] [] rows

/-- Segments headed by a sentinel row: each starts at a `"date"` row and
extends up to, but excluding, the next one. -/
def datedSegments : List SheetRowIn → List (List SheetRowIn)
  | [] => []
  | row :: rest =>
      (row :: rest.takeWhile (fun r => !isDateRow r)) ::
        datedSegments (rest.dropWhile (fun r => !isDateRow r))
termination_by l => l.length
decreasing_by
  simp only [List.length_cons]
  refine Nat.lt_succ_of_le ?_
  induction rest with
  | nil => simp
  | cons a l ih =>
    rw [List.dropWhile_cons]
    split
    · exact Nat.le_succ_of_le ih
    · simp

/-- The specification's block decomposition of a sheet: the rows before
the first sentinel (if any) form one leading segment, then one segment per
sentinel row. -/
def specSegments (rows : List SheetRowIn) : List (List SheetRowIn) :=
  let lead := rows.takeWhile (fun r => !isDateRow r)
  let rest := rows.dropWhile (fun r => !isDateRow r)
  (if lead.isEmpty then [] else [lead]) ++ datedSegments rest

/-- The record a segment denotes: its rows' field/value assignments folded
into a dict. -/
def buildRecord (seg : List SheetRowIn) : List (String × String) :=
  seg.foldl lvsStep []

/-- A representative stored row as the submit path writes it. -/
def mkSampleRow (d day : String) : Row :=
  { date := d
    day := day
    name := reporterName
    completed_tasks := "Stock Screens"
    incomplete_tasks := "All completed"
    organizing_details := ""
    notes := ""
    subtasks := some (encodeSubtasks [("Stock Screens", defaultSubs)]) }

/-! ## Shared helper lemmas -/

theorem dictInsert_keys {κ β : Type} [DecidableEq κ] (m : List (κ × β)) (k : κ) (v : β) :
    (dictInsert m k v).map Prod.fst =
      if k ∈ m.map Prod.fst then m.map Prod.fst else m.map Prod.fst ++ [k] := by
  unfold dictInsert
  split
  · rw [List.map_map]
    apply List.map_congr_left
    intro p _
    by_cases hp : p.1 = k <;> simp [hp]
  · simp

theorem foldl_processStep_completed_mono (inp : String → TaskInput) (tasks : List String) :
    ∀ acc : List String × List (String × String) × List (String × List String),
      ∀ k ∈ acc.1, k ∈ (tasks.foldl (processStep inp) acc).1 := by
  induction tasks with
  | nil => intro acc k hk; exact hk
  | cons t ts ih =>
    intro acc k hk
    rw [List.foldl_cons]
    apply ih
    unfold processStep
    split
    · exact List.mem_append_left _ hk
    · exact hk

theorem foldl_processStep_subkeys (inp : String → TaskInput) (tasks : List String) :
    ∀ acc : List String × List (String × String) × List (String × List String),
      (∀ k ∈ acc.2.2.map Prod.fst, k ∈ acc.1) →
      ∀ k ∈ (tasks.foldl (processStep inp) acc).2.2.map Prod.fst,
        k ∈ (tasks.foldl (processStep inp) acc).1 := by
  induction tasks with
  | nil => intro acc hacc; exact hacc
  | cons t ts ih =>
    intro acc hacc
    rw [List.foldl_cons]
    apply ih
    unfold processStep
    split
    · intro k hk
      rw [dictInsert_keys] at hk
      by_cases hmem : t ∈ acc.2.2.map Prod.fst
      · rw [if_pos hmem] at hk
        exact List.mem_append_left _ (hacc k hk)
      · rw [if_neg hmem] at hk
        rcases List.mem_append.mp hk with h | h
        · exact List.mem_append_left _ (hacc k h)
        · simp at h
          subst h
          exact List.mem_append_right _ (List.mem_singleton.mpr rfl)
    · exact hacc

/-! ## C1: the blank-reason validation gate -/

/-- C1: whenever some entry of the incomplete-tasks mapping has an empty
or whitespace-only reason, the submit handler reports a validation failure
and leaves the reports store unchanged; conversely the store changes (a
row is inserted) only when every incomplete task has a non-whitespace
reason. -/
theorem submit_blank_reason_rejected (store : List Row) (dateSel : Nat × Nat × Nat)
    (dayName : String) (completed : List String) (incomplete : List (String × String))
    (taskSubtasks : List (String × List String)) (orgDetails notes : String) :
    ((∃ p ∈ incomplete, pyStrip p.2 = "") →
        (submitReport store dateSel dayName completed incomplete taskSubtasks orgDetails notes).1 ≠
            SubmitOutcome.saved ∧
        (submitReport store dateSel dayName completed incomplete taskSubtasks orgDetails notes).2 =
            store) ∧
    ((submitReport store dateSel dayName completed incomplete taskSubtasks orgDetails notes).2 ≠
          store →
        ∀ p ∈ incomplete, pyStrip p.2 ≠ "") := by
  by_cases h1 : requiredInvalid dayName completed
  · constructor
    · intro _
      constructor
      · simp [submitReport, h1]
      · simp [submitReport, h1]
    · intro hch
      exact absurd (by simp [submitReport, h1]) hch
  · by_cases h2 : hasBlankReason incomplete
    · constructor
      · intro _
        constructor
        · simp [submitReport, h1, h2]
        · simp [submitReport, h1, h2]
      · intro hch
        exact absurd (by simp [submitReport, h1, h2]) hch
    · have hall : ∀ p ∈ incomplete, pyStrip p.2 ≠ "" := by
        intro p hp
        simp only [hasBlankReason, List.any_eq_true, not_exists] at h2
        push_neg at h2
        have := h2 p hp
        simpa using this
      constructor
      · intro hex
        obtain ⟨p, hp, hps⟩ := hex
        exact absurd hps (hall p hp)
      · intro _
        exact hall

/-- Witness for C1 at a concrete submission: one incomplete task with a
whitespace-only reason is rejected and the store keeps its single row. -/
theorem submit_blank_reason_rejected_witness :
    (submitReport [mkSampleRow ("2025-07-14") ("Monday")] (2025, 7, 15) ("Tuesday")
        (["Vision"]) ([("LTC", "  ")]) [] "" "").1 ≠ SubmitOutcome.saved ∧
    (submitReport [mkSampleRow ("2025-07-14") ("Monday")] (2025, 7, 15) ("Tuesday")
        (["Vision"]) ([("LTC", "  ")]) [] "" "").2 = [mkSampleRow ("2025-07-14") ("Monday")] :=
  (submit_blank_reason_rejected _ _ _ _ _ _ _ _).1
    ⟨("LTC", "  "), by decide, by decide⟩

/-! ## C5: deletion by the natural-key triple -/

/-- C5: the delete operation keeps exactly the rows not matching the
(date, day, name) triple, in order: it equals the matching-free filter of
the store, every matching row (duplicates included) ends with count zero,
and every non-matching row keeps its exact multiplicity. -/
theorem delete_where_exact (d dy n : String) (rows : List Row) :
    deleteWhere d dy n rows = rows.filter (fun r => ! rowMatches d dy n r) ∧
    (∀ r, rowMatches d dy n r = true → List.count r (deleteWhere d dy n rows) = 0) ∧
    (∀ r, rowMatches d dy n r = false →
        List.count r (deleteWhere d dy n rows) = List.count r rows) := by
  have hf : deleteWhere d dy n rows = rows.filter (fun r => ! rowMatches d dy n r) := by
    induction rows with
    | nil => rfl
    | cons r rs ih =>
      by_cases h : rowMatches d dy n r <;>
        simp [deleteWhere, List.filter_cons, h, ih]
  refine ⟨hf, ?_, ?_⟩
  · intro r hr
    rw [hf, List.count_eq_zero]
    simp [List.mem_filter, hr]
  · intro r hr
    clear hf
    induction rows with
    | nil => rfl
    | cons x xs ih =>
      by_cases hm : rowMatches d dy n x
      · have hxr : ¬ (x == r) = true := by
          intro he
          rw [beq_iff_eq] at he
          rw [he, hr] at hm
          exact Bool.false_ne_true hm
        simp [deleteWhere, hm, List.count_cons, hxr, ih]
      · simp [deleteWhere, hm, List.count_cons, ih]

/-- Witness for C5 at a concrete store: a duplicated matching row is fully
removed while the non-matching row keeps its multiplicity. -/
theorem delete_where_exact_witness :
    List.count (mkSampleRow ("2025-07-14") ("Monday"))
        (deleteWhere ("2025-07-14") ("Monday") reporterName
          [mkSampleRow ("2025-07-14") ("Monday"), mkSampleRow ("2025-07-21") ("Monday"),
           mkSampleRow ("2025-07-14") ("Monday")]) = 0 ∧
    List.count (mkSampleRow ("2025-07-21") ("Monday"))
        (deleteWhere ("2025-07-14") ("Monday") reporterName
          [mkSampleRow ("2025-07-14") ("Monday"), mkSampleRow ("2025-07-21") ("Monday"),
           mkSampleRow ("2025-07-14") ("Monday")]) =
      List.count (mkSampleRow ("2025-07-21") ("Monday"))
        [mkSampleRow ("2025-07-14") ("Monday"), mkSampleRow ("2025-07-21") ("Monday"),
         mkSampleRow ("2025-07-14") ("Monday")] :=
  ⟨(delete_where_exact _ _ _ _).2.1 _ (by decide),
   (delete_where_exact _ _ _ _).2.2 _ (by decide)⟩

/-! ## C9: subtasks keys are completed tasks -/

/-- C9: on every record the submit path builds, each key of the
`task_subtasks` mapping is a task that was marked completed. -/
theorem subtasks_keys_subset_completed (tasks : List String) (inp : String → TaskInput) :
    ∀ k ∈ (processTasks tasks inp).2.2.map Prod.fst, k ∈ (processTasks tasks inp).1 := by
  unfold processTasks
  exact foldl_processStep_subkeys inp tasks ([], [], []) (by intro k hk; simp at hk)

/-- Witness for C9 at a concrete form state: the single completed task is
the single subtasks key and is listed as completed. -/
theorem subtasks_keys_subset_completed_witness :
    ("Vision" : String) ∈
      (processTasks ["Vision"] (fun _ => ⟨true, fun _ => true, ""⟩)).1 :=
  subtasks_keys_subset_completed ["Vision"] (fun _ => ⟨true, fun _ => true, ""⟩) "Vision"
    (by decide)

/-! ## C3: the spreadsheet export's sheet structure -/

/-- C3 (amended): the Excel export always produces exactly one sheet,
named `All_Reports`, containing every prepared report row — the reports'
ISO weeks play no role in the sheet structure. -/
theorem excel_export_single_sheet (rows : List Row) :
    (excelExport rows).map Prod.fst = [("All_Reports" : String)] ∧
    (excelExport rows).length = 1 ∧
    ∀ sheet ∈ excelExport rows, sheet.2 = rows.map toPdfRow := by
  refine ⟨rfl, rfl, ?_⟩
  intro sheet hs
  simp [excelExport] at hs
  rw [hs]

/-- Witness for C3's amended statement at a concrete store. -/
theorem excel_export_single_sheet_witness :
    ∀ sheet ∈ excelExport [mkSampleRow ("2025-07-14") ("Monday")],
      sheet.2 = [mkSampleRow ("2025-07-14") ("Monday")].map toPdfRow :=
  (excel_export_single_sheet _).2.2

/-- Counterexample to C3 as stated: three reports spanning the two
distinct ISO weeks 29 and 30 of 2025 are exported as one single sheet,
not two. -/
theorem excel_export_two_weeks_single_sheet :
    rowWeek (mkSampleRow ("2025-07-14") ("Monday")) = some 29 ∧
    rowWeek (mkSampleRow ("2025-07-21") ("Monday")) = some 30 ∧
    (excelExport [mkSampleRow ("2025-07-14") ("Monday"), mkSampleRow ("2025-07-15") ("Tuesday"),
        mkSampleRow ("2025-07-21") ("Monday")]).length = 1 ∧
    (excelExport [mkSampleRow ("2025-07-14") ("Monday"), mkSampleRow ("2025-07-15") ("Tuesday"),
        mkSampleRow ("2025-07-21") ("Monday")]).length ≠ 2 := by
  refine ⟨by decide, by decide, rfl, by decide⟩

/-! ## C6: dividers between rendered reports -/

theorem traceLines_append (a b : List PdfElem) :
    traceLines (a ++ b) = traceLines a ++ traceLines b :=
  List.filter_append _ _

theorem traceLines_map_multiCell {α : Type} (f : α → String) (l : List α) :
    traceLines (l.map (fun a => PdfElem.multiCell (f a))) = [] := by
  induction l with
  | nil => rfl
  | cons a l ih =>
    rw [List.map_cons, traceLines, List.filter_cons, if_neg (by simp [isLineElem])]
    exact ih

theorem traceLines_task_block (subs : JVal) (tasks : List String) :
    traceLines (tasks.flatMap (fun task =>
      PdfElem.cell ("✔ " ++ task) ::
        (subsItems subs task).map (fun item => PdfElem.multiCell ("• " ++ pyStrJVal item)))) =
      [] := by
  induction tasks with
  | nil => rfl
  | cons t ts ih =>
    rw [List.flatMap_cons, traceLines_append]
    rw [ih]
    have h1 : traceLines (PdfElem.cell ("✔ " ++ t) ::
        (subsItems subs t).map (fun item => PdfElem.multiCell ("• " ++ pyStrJVal item))) =
        traceLines ((subsItems subs t).map
          (fun item => PdfElem.multiCell ("• " ++ pyStrJVal item))) := by
      simp [traceLines, List.filter_cons, isLineElem]
    rw [h1, traceLines_map_multiCell]
    rfl

theorem traceLines_incompleteLines (x : Option String) :
    traceLines (incompleteLines x) = [] := by
  unfold incompleteLines
  cases x with
  | none => rfl
  | some s =>
    cases h : loads s with
    | none => simp only [h]; rfl
    | some v =>
      cases v with
      | jobj ms =>
        simp only [h]
        by_cases he : ms.isEmpty = true
        · rw [if_pos he]
          rfl
        · rw [if_neg he]
          exact traceLines_map_multiCell _ _
      | jnull => simp only [h]; rfl
      | jbool b => simp only [h]; rfl
      | jnum l => simp only [h]; rfl
      | jstr l => simp only [h]; rfl
      | jarr l => simp only [h]; rfl

theorem traceLines_renderRow (r : PdfRow) :
    traceLines (renderRow r) =
      if r.Date.isSome then [PdfElem.line 150 150 150] else [] := by
  cases hd : r.Date with
  | none => simp [renderRow, hd, traceLines]
  | some ymd =>
    simp only [renderRow, hd, Option.isSome_some, if_true]
    rw [traceLines_append, traceLines_append, traceLines_append, traceLines_append,
      traceLines_append]
    rw [traceLines_task_block, traceLines_incompleteLines]
    have h1 : traceLines [PdfElem.cell (formatDate ymd ++ " (" ++ r.Day ++ ")"),
        PdfElem.cell ("Completed Tasks:")] = [] := rfl
    have h2 : traceLines (if (splitCompleted (pyOr r.completed_tasks "")).isEmpty then
        [PdfElem.cell ("-")] else []) = [] := by
      split <;> rfl
    have h3 : traceLines [PdfElem.cell ("Organizing Details:"),
        PdfElem.multiCell (pyOr r.organizing_details "-"),
        PdfElem.cell ("Incomplete Tasks:")] = [] := rfl
    have h4 : traceLines [PdfElem.cell ("Notes:"), PdfElem.multiCell (pyOr r.notes "-"),
        PdfElem.line 150 150 150] = [PdfElem.line 150 150 150] := rfl
    rw [h1, h2, h3, h4]
    rfl

theorem traceLines_flatMap (rows : List PdfRow) :
    traceLines (rows.flatMap renderRow) =
      List.replicate (rows.countP (fun r => r.Date.isSome)) (PdfElem.line 150 150 150) := by
  induction rows with
  | nil => rfl
  | cons r rs ih =>
    rw [List.flatMap_cons, traceLines_append, ih, traceLines_renderRow]
    cases hd : r.Date <;>
      simp [List.countP_cons, hd, List.replicate_succ]

/-- C6 (amended): the renderer draws exactly one divider per rendered
report (rows with a missing date are skipped), always with the same light
draw colour (150, 150, 150); no additional divider is inserted at
ISO-week boundaries or anywhere else. -/
theorem pdf_one_light_divider_per_report (rows : List PdfRow) (w : Nat) :
    traceLines (generatePdf rows w) =
      List.replicate (rows.countP (fun r => r.Date.isSome)) (PdfElem.line 150 150 150) := by
  have hgen : ∀ (t : String) (l : List PdfElem),
      traceLines (PdfElem.cell t :: l ++ [PdfElem.pageFooter]) = traceLines l := by
    intro t l
    have hsplit : (PdfElem.cell t :: l ++ [PdfElem.pageFooter]) =
        [PdfElem.cell t] ++ l ++ [PdfElem.pageFooter] := rfl
    rw [hsplit, traceLines_append, traceLines_append]
    have h1 : traceLines [PdfElem.cell t] = [] := rfl
    have h2 : traceLines [PdfElem.pageFooter] = [] := rfl
    rw [h1, h2, List.nil_append, List.append_nil]
  unfold generatePdf
  rw [hgen, traceLines_flatMap]

set_option maxRecDepth 8000 in
/-- Counterexample to C6 as stated: two consecutive reports fall in the
distinct ISO weeks 29 and 30 of 2025, yet the rendered trace contains
exactly the two per-report dividers, both with the same light colour —
no additional heavier divider is inserted between them. -/
theorem pdf_no_week_divider_cex :
    isoWeek 2025 7 14 = 29 ∧ isoWeek 2025 7 21 = 30 ∧
    traceLines (weeklyPdf [mkSampleRow ("2025-07-14") ("Monday"),
        mkSampleRow ("2025-07-21") ("Monday")]) =
      [PdfElem.line 150 150 150, PdfElem.line 150 150 150] :=
  ⟨by decide, by decide, rfl⟩

/-! ## C7: text sanitisation before layout -/

/-- C7 (amended): the renderer applies no sanitisation — every completed
task is emitted verbatim as a cell `"✔ task"`, a string that is not pure
ASCII (the check-mark glyph lies outside both ASCII and latin-1), so the
document output is not restricted to the supported encoding whenever a
report has a completed task; the `encode("ascii","ignore")` filter of the
unused `clean_text` helper would have guaranteed an all-ASCII result. -/
theorem pdf_emits_unsanitized_checkmark (rows : List PdfRow) (w : Nat) (r : PdfRow)
    (ymd : Nat × Nat × Nat) (t : String) (hr : r ∈ rows) (hd : r.Date = some ymd)
    (ht : t ∈ splitCompleted (pyOr r.completed_tasks "")) :
    PdfElem.cell ("✔ " ++ t) ∈ generatePdf rows w ∧
    isAsciiStr ("✔ " ++ t) = false ∧
    ∀ s : Str, (asciiIgnore s).all (fun c => c.toNat < 128) = true := by
  refine ⟨?_, ?_, ?_⟩
  · have hflat : PdfElem.cell ("✔ " ++ t) ∈
        (splitCompleted (pyOr r.completed_tasks "")).flatMap (fun task =>
          PdfElem.cell ("✔ " ++ task) ::
            (subsItems (pdfSubs r.subtasks) task).map
              (fun item => PdfElem.multiCell ("• " ++ pyStrJVal item))) :=
      List.mem_flatMap.mpr ⟨t, ht, List.mem_cons_self _ _⟩
    have hmem : PdfElem.cell ("✔ " ++ t) ∈ renderRow r := by
      rw [renderRow, hd]
      exact List.mem_append_left _ (List.mem_append_left _ (List.mem_append_left _
        (List.mem_append_left _ (List.mem_append_right _ hflat))))
    unfold generatePdf
    exact List.mem_cons_of_mem _ (List.mem_append_left _ (List.mem_flatMap.mpr ⟨r, hr, hmem⟩))
  · rw [isAsciiStr, String.data_append, List.all_append]
    have h1 : ("✔ " : String).data.all (fun c => decide (c.toNat < 128)) = false := by decide
    rw [h1, Bool.false_and]
  · intro s
    rw [List.all_eq_true]
    intro c hc
    have := (List.mem_filter.mp hc).2
    simpa using this

/-- Witness for C7's amended statement at a concrete report. -/
theorem pdf_emits_unsanitized_checkmark_witness :
    PdfElem.cell ("✔ Stock Screens") ∈
      generatePdf [toPdfRow (mkSampleRow ("2025-07-14") ("Monday"))] 0 ∧
    isAsciiStr ("✔ Stock Screens") = false ∧
    ∀ s : Str, (asciiIgnore s).all (fun c => c.toNat < 128) = true :=
  pdf_emits_unsanitized_checkmark [toPdfRow (mkSampleRow ("2025-07-14") ("Monday"))] 0
    (toPdfRow (mkSampleRow ("2025-07-14") ("Monday"))) (2025, 7, 14) ("Stock Screens")
    (List.mem_cons_self _ _) rfl (by decide)

/-- Counterexample to C7 as stated: the document trace for a stored report
contains the cell text `"✔ Stock Screens"`, which is not pure ASCII (the
check mark is code point 10004, outside the supported encoding), so the
rendered output is not restricted to sanitised text. -/
theorem pdf_unsanitized_text_cex :
    PdfElem.cell ("✔ Stock Screens") ∈
      weeklyPdf [mkSampleRow ("2025-07-14") ("Monday")] ∧
    isAsciiStr ("✔ Stock Screens") = false ∧ ('✔').toNat = 10004 := by
  refine ⟨by decide, by decide, by decide⟩

/-! ## C8: the bulk-import block boundary rule -/

theorem lvsStep_ne_nil (current : List (String × String)) (row : SheetRowIn) :
    lvsStep current row ≠ [] := by
  unfold lvsStep dictInsert
  split
  · intro h
    have hc : current = [] := by
      have := congrArg List.length h
      simpa using this
    rename_i hmem
    rw [hc] at hmem
    simp at hmem
  · simp

theorem foldl_lvsStep_ne_nil (seg : List SheetRowIn) :
    ∀ current, current ≠ [] → seg.foldl lvsStep current ≠ [] := by
  induction seg with
  | nil => intro c h; exact h
  | cons row rest ih =>
    intro c _
    rw [List.foldl_cons]
    exact ih _ (lvsStep_ne_nil c row)

theorem lvsGo_split (rows : List SheetRowIn) :
    ∀ (records : List (List (String × String))) (current : List (String × String)),
      lvsGo records current rows =
        (records ++
          (if (rows.takeWhile (fun r => !isDateRow r)).foldl lvsStep current = [] then []
           else [(rows.takeWhile (fun r => !isDateRow r)).foldl lvsStep current])) ++
        (datedSegments (rows.dropWhile (fun r => !isDateRow r))).map buildRecord := by
  induction rows with
  | nil =>
    intro records current
    by_cases hc : current = [] <;>
      simp [lvsGo, datedSegments, hc]
  | cons row rest ih =>
    intro records current
    by_cases hd : isDateRow row
    · rw [lvsGo, if_pos hd, ih]
      have htw : (row :: rest).takeWhile (fun r => !isDateRow r) = [] := by
        simp [List.takeWhile_cons, hd]
      have hdw : (row :: rest).dropWhile (fun r => !isDateRow r) = row :: rest := by
        simp [List.dropWhile_cons, hd]
      rw [htw, hdw]
      have hseg : datedSegments (row :: rest) =
          (row :: rest.takeWhile (fun r => !isDateRow r)) ::
            datedSegments (rest.dropWhile (fun r => !isDateRow r)) := by
        rw [datedSegments]
      rw [hseg]
      have hne : (rest.takeWhile (fun r => !isDateRow r)).foldl lvsStep (lvsStep [] row) ≠ [] :=
        foldl_lvsStep_ne_nil _ _ (lvsStep_ne_nil [] row)
      rw [if_neg hne]
      have hbuild : buildRecord (row :: rest.takeWhile (fun r => !isDateRow r)) =
          (rest.takeWhile (fun r => !isDateRow r)).foldl lvsStep (lvsStep [] row) := by
        rw [buildRecord, List.foldl_cons]
      rw [List.map_cons, hbuild]
      have hflush : (if current.isEmpty then records else records ++ [current]) =
          records ++ (if current = [] then [] else [current]) := by
        by_cases hc : current = [] <;> simp [hc]
      rw [List.foldl_nil, hflush]
      by_cases hc : current = [] <;> simp [hc]
    · rw [lvsGo, if_neg hd, ih]
      have hb : (!isDateRow row) = true := by simp [hd]
      rw [List.takeWhile_cons, if_pos hb, List.dropWhile_cons, if_pos hb, List.foldl_cons]

/-- C8 (amended): `load_vertical_sheet` produces exactly one record per
block, where the blocks are: the rows before the first sentinel row (a
Field equal to `"date"` after trimming, case-insensitively) when any
exist, then one block per sentinel row extending up to but excluding the
next sentinel; the record in progress is flushed when a sentinel is seen
and the final record is appended after the last row, each record being
its block's field/value assignments folded into a dict. -/
theorem load_vertical_sheet_segments (rows : List SheetRowIn) :
    loadVerticalSheet rows = (specSegments rows).map buildRecord := by
  unfold loadVerticalSheet specSegments
  rw [lvsGo_split]
  rw [List.map_append]
  by_cases hl : rows.takeWhile (fun r => !isDateRow r) = []
  · simp [hl, buildRecord]
  · obtain ⟨row, t, ht⟩ : ∃ row t, rows.takeWhile (fun r => !isDateRow r) = row :: t := by
      cases h : rows.takeWhile (fun r => !isDateRow r) with
      | nil => exact absurd h hl
      | cons a b => exact ⟨a, b, rfl⟩
    have hne : (rows.takeWhile (fun r => !isDateRow r)).foldl lvsStep [] ≠ [] := by
      rw [ht, List.foldl_cons]
      exact foldl_lvsStep_ne_nil _ _ (lvsStep_ne_nil [] row)
    rw [if_neg hne]
    have hle : (rows.takeWhile (fun r => !isDateRow r)).isEmpty = false := by
      rw [ht]; rfl
    rw [hle]
    simp [buildRecord]

/-- Counterexample to C8 as stated: a sheet whose first row is not a
sentinel produces a leading record `[("notes", "x")]` that does not start
at (or contain) any `"date"` field, contradicting that every produced
record consists of the fields from one `"date"` row up to the next. -/
theorem import_leading_record_cex :
    loadVerticalSheet [⟨"notes", some ("x")⟩, ⟨"date", some ("2025-07-14")⟩] =
      [[("notes", "x")], [("date", "2025-07-14")]] ∧
    asciiLower (pyStrip ("notes")) ≠ "date" :=
  ⟨rfl, by decide⟩

/-! ## C2: round trip of the `subtasks` encoding

The chain below proves that `json.loads` inverts `json.dumps` on every
dict mapping task names to sub-item string lists: first for one escaped
character, then for a whole string literal, then for arrays of strings,
then for the object member list, and finally for `loads ∘ dumps`. -/

theorem charOfNat_toNat (c : Char) : Char.ofNat c.toNat = c := by
  have hv : Nat.isValidChar c.toNat := c.valid
  unfold Char.ofNat
  rw [dif_pos hv]
  apply Char.eq_of_val_eq
  apply UInt32.eq_of_toBitVec_eq
  apply BitVec.eq_of_toNat_eq
  simp [Char.ofNatAux]
  rfl

theorem char_toNat_lt (c : Char) : c.toNat < 1114112 := by
  rcases c.valid with h | h
  · exact Nat.lt_trans h (by norm_num)
  · exact h.2

theorem char_toNat_not_surrogate (c : Char) : ¬ (55296 ≤ c.toNat ∧ c.toNat < 57344) := by
  show ¬ (55296 ≤ c.val.toNat ∧ c.val.toNat < 57344)
  rcases c.valid with h | h
  · omega
  · rcases h with ⟨h1, h2⟩
    omega

theorem hexVal_hexDigitChar (d : Nat) (hd : d < 16) : hexVal (hexDigitChar d) = some d := by
  interval_cases d <;> decide

theorem hex4_digits (n : Nat) (hn : n < 65536) :
    hex4 (hexDigitChar (n / 4096 % 16)) (hexDigitChar (n / 256 % 16))
      (hexDigitChar (n / 16 % 16)) (hexDigitChar (n % 16)) = some n := by
  have h1 : n / 4096 % 16 < 16 := Nat.mod_lt _ (by norm_num)
  have h2 : n / 256 % 16 < 16 := Nat.mod_lt _ (by norm_num)
  have h3 : n / 16 % 16 < 16 := Nat.mod_lt _ (by norm_num)
  have h4 : n % 16 < 16 := Nat.mod_lt _ (by norm_num)
  rw [hex4, hexVal_hexDigitChar _ h1, hexVal_hexDigitChar _ h2, hexVal_hexDigitChar _ h3,
    hexVal_hexDigitChar _ h4]
  simp only [Option.bind_eq_bind, Option.some_bind]
  congr 1
  omega

theorem decodeOneChar_uEscape (n : Nat) (hn : n < 65536)
    (hs : ¬ (55296 ≤ n ∧ n < 57344)) (rest : Str) :
    decodeOneChar (uEscape n ++ rest) = some (Char.ofNat n, rest) := by
  show decodeOneChar ('\\' :: 'u' :: hexDigitChar (n / 4096 % 16) :: hexDigitChar (n / 256 % 16) ::
      hexDigitChar (n / 16 % 16) :: hexDigitChar (n % 16) :: rest) = _
  rw [decodeOneChar]
  simp only [if_true]
  rw [hex4_digits n hn]
  simp only []
  rw [if_neg (by omega), if_neg (by omega)]

theorem decodeOneChar_surrogatePair (n : Nat) (h1 : 65536 ≤ n) (h2 : n < 1114112) (rest : Str) :
    decodeOneChar (uEscape (55296 + (n - 65536) / 1024) ++
        (uEscape (56320 + (n - 65536) % 1024) ++ rest)) = some (Char.ofNat n, rest) := by
  have hmod : (n - 65536) % 1024 < 1024 := Nat.mod_lt _ (by norm_num)
  have hhiGe : 55296 ≤ 55296 + (n - 65536) / 1024 := Nat.le_add_right _ _
  have hhiLt : 55296 + (n - 65536) / 1024 < 56320 := by omega
  have hhi64 : 55296 + (n - 65536) / 1024 < 65536 := by omega
  have hloGe : 56320 ≤ 56320 + (n - 65536) % 1024 := Nat.le_add_right _ _
  have hloLt : 56320 + (n - 65536) % 1024 < 57344 := by omega
  have hlo64 : 56320 + (n - 65536) % 1024 < 65536 := by omega
  show decodeOneChar ('\\' :: 'u' :: _ :: _ :: _ :: _ ::
      ('\\' :: 'u' :: _ :: _ :: _ :: _ :: rest)) = _
  rw [decodeOneChar]
  simp only [if_true]
  rw [hex4_digits _ hhi64]
  simp only []
  rw [if_pos ⟨hhiGe, hhiLt⟩]
  rw [hex4_digits _ hlo64]
  simp only []
  rw [if_pos ⟨hloGe, hloLt⟩]
  have harg : 65536 + (55296 + (n - 65536) / 1024 - 55296) * 1024 +
      (56320 + (n - 65536) % 1024 - 56320) = n := by omega
  rw [harg]

theorem decodeOneChar_escapeChar (c : Char) (rest : Str) :
    decodeOneChar (escapeChar c ++ rest) = some (c, rest) := by
  have hval : c.toNat < 1114112 := char_toNat_lt c
  have hsur : ¬ (55296 ≤ c.toNat ∧ c.toNat < 57344) := char_toNat_not_surrogate c
  unfold escapeChar
  by_cases hq : c = '"'
  · rw [if_pos hq, hq]
    rfl
  · rw [if_neg hq]
    by_cases hb : c = '\\'
    · rw [if_pos hb, hb]
      rfl
    · rw [if_neg hb]
      by_cases h8 : c.toNat = 8
      · rw [if_pos h8]
        show some (Char.ofNat 8, rest) = _
        rw [← h8, charOfNat_toNat]
      · rw [if_neg h8]
        by_cases h9 : c.toNat = 9
        · rw [if_pos h9]
          show some (Char.ofNat 9, rest) = _
          rw [← h9, charOfNat_toNat]
        · rw [if_neg h9]
          by_cases h10 : c.toNat = 10
          · rw [if_pos h10]
            show some (Char.ofNat 10, rest) = _
            rw [← h10, charOfNat_toNat]
          · rw [if_neg h10]
            by_cases h12 : c.toNat = 12
            · rw [if_pos h12]
              show some (Char.ofNat 12, rest) = _
              rw [← h12, charOfNat_toNat]
            · rw [if_neg h12]
              by_cases h13 : c.toNat = 13
              · rw [if_pos h13]
                show some (Char.ofNat 13, rest) = _
                rw [← h13, charOfNat_toNat]
              · rw [if_neg h13]
                by_cases h32 : c.toNat < 32
                · rw [if_pos h32]
                  rw [decodeOneChar_uEscape c.toNat (by omega) (by omega), charOfNat_toNat]
                · rw [if_neg h32]
                  by_cases h126 : c.toNat ≤ 126
                  · rw [if_pos h126]
                    show decodeOneChar (c :: rest) = _
                    rw [decodeOneChar.eq_def]
                    simp only []
                    rw [if_neg hb]
                  · rw [if_neg h126]
                    by_cases h64 : c.toNat < 65536
                    · rw [if_pos h64]
                      rw [decodeOneChar_uEscape c.toNat h64 hsur, charOfNat_toNat]
                    · rw [if_neg h64]
                      rw [List.append_assoc]
                      rw [decodeOneChar_surrogatePair c.toNat (by omega) hval, charOfNat_toNat]

theorem escapeChar_head_ne_quote (c : Char) :
    ∃ x xs, escapeChar c = x :: xs ∧ x ≠ '"' := by
  unfold escapeChar
  by_cases hq : c = '"'
  · rw [if_pos hq]
    exact ⟨_, _, rfl, by decide⟩
  · rw [if_neg hq]
    by_cases hb : c = '\\'
    · rw [if_pos hb]
      exact ⟨_, _, rfl, by decide⟩
    · rw [if_neg hb]
      by_cases h8 : c.toNat = 8
      · rw [if_pos h8]; exact ⟨_, _, rfl, by decide⟩
      · rw [if_neg h8]
        by_cases h9 : c.toNat = 9
        · rw [if_pos h9]; exact ⟨_, _, rfl, by decide⟩
        · rw [if_neg h9]
          by_cases h10 : c.toNat = 10
          · rw [if_pos h10]; exact ⟨_, _, rfl, by decide⟩
          · rw [if_neg h10]
            by_cases h12 : c.toNat = 12
            · rw [if_pos h12]; exact ⟨_, _, rfl, by decide⟩
            · rw [if_neg h12]
              by_cases h13 : c.toNat = 13
              · rw [if_pos h13]; exact ⟨_, _, rfl, by decide⟩
              · rw [if_neg h13]
                by_cases h32 : c.toNat < 32
                · rw [if_pos h32]; exact ⟨_, _, rfl, by decide⟩
                · rw [if_neg h32]
                  by_cases h126 : c.toNat ≤ 126
                  · rw [if_pos h126]
                    refine ⟨c, [], rfl, hq⟩
                  · rw [if_neg h126]
                    by_cases h64 : c.toNat < 65536
                    · rw [if_pos h64]; exact ⟨_, _, rfl, by decide⟩
                    · rw [if_neg h64]; exact ⟨_, _, rfl, by decide⟩

theorem parseStrBodyGo_not_quote (f : Nat) (x : Char) (xs : Str) (hx : x ≠ '"') :
    parseStrBodyGo (f + 1) (x :: xs) =
      match decodeOneChar (x :: xs) with
      | none => none
      | some (ch, rest2) =>
        match parseStrBodyGo f rest2 with
        | none => none
        | some (s, r) => some (ch :: s, r) := by
  rw [parseStrBodyGo, if_neg hx]

theorem parseStrBodyGo_escBody (s : Str) : ∀ (rest : Str) (fuel : Nat),
    (escBody s).length + 1 ≤ fuel →
    parseStrBodyGo fuel (escBody s ++ '"' :: rest) = some (s, rest) := by
  induction s with
  | nil =>
    intro rest fuel hf
    obtain ⟨f, rfl⟩ : ∃ f, fuel = f + 1 := ⟨fuel - 1, by omega⟩
    show parseStrBodyGo (f + 1) ('"' :: rest) = some ([], rest)
    rw [parseStrBodyGo, if_pos rfl]
  | cons c s ih =>
    intro rest fuel hf
    obtain ⟨x, xs, hE, hx⟩ := escapeChar_head_ne_quote c
    have hEl : 1 ≤ (escapeChar c).length := by rw [hE]; simp
    have hfl : (escBody (c :: s)).length = (escapeChar c).length + (escBody s).length := by
      rw [escBody, List.length_append]
    obtain ⟨f, rfl⟩ : ∃ f, fuel = f + 1 := ⟨fuel - 1, by omega⟩
    show parseStrBodyGo (f + 1) (escBody (c :: s) ++ '"' :: rest) = _
    rw [escBody, List.append_assoc, hE, List.cons_append,
      parseStrBodyGo_not_quote f x _ hx, ← List.cons_append, ← hE,
      decodeOneChar_escapeChar c (escBody s ++ '"' :: rest)]
    simp only []
    rw [ih rest f (by omega)]

theorem parseStrBody_escBody (s rest : Str) :
    parseStrBody (escBody s ++ '"' :: rest) = some (s, rest) := by
  unfold parseStrBody
  apply parseStrBodyGo_escBody
  rw [List.length_append]
  simp

theorem skipSpaces_not_space (c : Char) (l : Str) (h : ¬ isJsonSpace c = true) :
    skipSpaces (c :: l) = c :: l := by
  rw [skipSpaces, if_neg h]

theorem skipSpaces_space (l : Str) : skipSpaces (' ' :: l) = skipSpaces l := by
  rw [skipSpaces, if_pos (show isJsonSpace ' ' = true from rfl)]

theorem parseVal_space (f : Nat) (l : Str) : parseVal f (' ' :: l) = parseVal f l := by
  cases f with
  | zero => rfl
  | succ g =>
    rw [parseVal.eq_def, parseVal.eq_def]
    simp only []
    rw [skipSpaces_space]

theorem parseElems_space (f : Nat) (l : Str) :
    parseElems (f + 1) (' ' :: l) = parseElems (f + 1) l := by
  rw [parseElems.eq_def, parseElems.eq_def]
  simp only []
  rw [parseVal_space]

theorem parseMembers_space (f : Nat) (l : Str) :
    parseMembers (f + 1) (' ' :: l) = parseMembers (f + 1) l := by
  rw [parseMembers.eq_def, parseMembers.eq_def]
  simp only []
  rw [skipSpaces_space]

theorem parseVal_print_str (s : Str) (rest : Str) (f : Nat) :
    parseVal (f + 1) (printStr s ++ rest) = some (.jstr s, rest) := by
  have hshape : printStr s ++ rest = '"' :: (escBody s ++ '"' :: rest) := by
    rw [printStr]
    simp
  rw [hshape, parseVal.eq_def]
  simp only []
  rw [skipSpaces_not_space '"' _ (by decide)]
  simp only []
  rw [parseStrBody_escBody]
  rfl

theorem parseElems_strs (ss : List Str) : ∀ (s0 : Str) (rest : Str) (f : Nat),
    ss.length + 2 ≤ f →
    parseElems f (printStr s0 ++ (printElems (ss.map .jstr) ++ ']' :: rest)) =
      some ((s0 :: ss).map .jstr, rest) := by
  induction ss with
  | nil =>
    intro s0 rest f hf
    obtain ⟨g, rfl⟩ : ∃ g, f = g + 1 := ⟨f - 1, by omega⟩
    obtain ⟨g2, rfl⟩ : ∃ g2, g = g2 + 1 := ⟨g - 1, by omega⟩
    rw [parseElems.eq_def]
    simp only [List.map_nil, printElems, List.nil_append]
    rw [parseVal_print_str]
    simp only [Option.bind_eq_bind, Option.some_bind]
    rw [skipSpaces_not_space ']' _ (by decide)]
    rfl
  | cons s1 ss ih =>
    intro s0 rest f hf
    obtain ⟨g, rfl⟩ : ∃ g, f = g + 1 := ⟨f - 1, by omega⟩
    obtain ⟨g2, rfl⟩ : ∃ g2, g = g2 + 1 := ⟨g - 1, by omega⟩
    rw [parseElems.eq_def]
    simp only [List.map_cons]
    rw [printElems, printJson]
    have hshape : printStr s0 ++ ((',' :: ' ' :: (printStr s1 ++ printElems (ss.map .jstr))) ++
        ']' :: rest) = printStr s0 ++ (',' :: ' ' ::
          (printStr s1 ++ (printElems (ss.map .jstr) ++ ']' :: rest))) := by
      simp
    rw [hshape]
    rw [parseVal_print_str]
    simp only [Option.bind_eq_bind, Option.some_bind]
    rw [skipSpaces_not_space ',' _ (by decide)]
    simp only []
    rw [parseElems_space]
    rw [ih s1 rest (g2 + 1) (by simp only [List.length_cons] at hf; omega)]
    rfl

theorem parseVal_arr_strs (ss : List Str) (rest : Str) (f : Nat) (hf : ss.length + 3 ≤ f) :
    parseVal f (printJson (.jarr (ss.map .jstr)) ++ rest) =
      some (.jarr (ss.map .jstr), rest) := by
  obtain ⟨g, rfl⟩ : ∃ g, f = g + 1 := ⟨f - 1, by omega⟩
  cases ss with
  | nil =>
    show parseVal (g + 1) ('[' :: ']' :: rest) = _
    rw [parseVal.eq_def]
    simp only []
    rw [skipSpaces_not_space '[' _ (by decide)]
    simp only []
    rw [skipSpaces_not_space ']' _ (by decide)]
    rfl
  | cons s0 ss =>
    simp only [List.map_cons]
    rw [printJson, printJson]
    have hshape : ('[' :: (printStr s0 ++ printElems (ss.map .jstr)) ++ [']']) ++ rest =
        '[' :: (printStr s0 ++ (printElems (ss.map .jstr) ++ ']' :: rest)) := by
      simp
    rw [hshape, parseVal.eq_def]
    simp only []
    rw [skipSpaces_not_space '[' _ (by decide)]
    simp only []
    have hq : skipSpaces (printStr s0 ++ (printElems (ss.map .jstr) ++ ']' :: rest)) =
        printStr s0 ++ (printElems (ss.map .jstr) ++ ']' :: rest) := by
      rw [printStr]
      simp only [List.cons_append]
      exact skipSpaces_not_space '"' _ (by decide)
    rw [hq]
    show Option.map (fun p => (JVal.jarr p.1, p.2))
        (parseElems g (printStr s0 ++ (printElems (ss.map .jstr) ++ ']' :: rest))) =
      some (JVal.jarr (JVal.jstr s0 :: ss.map .jstr), rest)
    rw [parseElems_strs ss s0 rest g (by simp only [List.length_cons] at hf; omega)]
    rfl

theorem subBudget_cons (e : Str × List Str) (es : List (Str × List Str)) :
    subBudget (e :: es) = e.2.length + 4 + subBudget es := by
  simp [subBudget, Nat.add_comm]

theorem parseMembers_entries (es : List (Str × List Str)) :
    ∀ (e0 : Str × List Str) (rest : Str) (f : Nat),
    subBudget (e0 :: es) ≤ f →
    parseMembers f (printStr e0.1 ++ (':' :: ' ' :: (printJson (.jarr (e0.2.map .jstr)) ++
        (printMembers (es.map subEntry) ++ '}' :: rest)))) =
      some ((e0 :: es).map subEntry, rest) := by
  induction es with
  | nil =>
    intro e0 rest f hf
    rw [subBudget_cons] at hf
    obtain ⟨g, rfl⟩ : ∃ g, f = g + 1 := ⟨f - 1, by omega⟩
    rw [parseMembers.eq_def]
    simp only []
    have hshape : printStr e0.1 ++ (':' :: ' ' :: (printJson (.jarr (e0.2.map .jstr)) ++
        (printMembers (([] : List (Str × List Str)).map subEntry) ++ '}' :: rest))) =
        '"' :: (escBody e0.1 ++ '"' :: (':' :: ' ' :: (printJson (.jarr (e0.2.map .jstr)) ++
          '}' :: rest))) := by
      rw [printStr]
      simp [printMembers]
    rw [hshape]
    rw [skipSpaces_not_space '"' _ (by decide)]
    simp only []
    rw [parseStrBody_escBody]
    simp only [Option.bind_eq_bind, Option.some_bind]
    rw [skipSpaces_not_space ':' _ (by decide)]
    simp only []
    rw [parseVal_space]
    rw [parseVal_arr_strs e0.2 ('}' :: rest) g (by omega)]
    simp only [Option.bind_eq_bind, Option.some_bind]
    rw [skipSpaces_not_space '}' _ (by decide)]
    simp only [List.map_cons, List.map_nil, subEntry]
  | cons e1 es ih =>
    intro e0 rest f hf
    rw [subBudget_cons] at hf
    obtain ⟨g, rfl⟩ : ∃ g, f = g + 1 := ⟨f - 1, by omega⟩
    rw [parseMembers.eq_def]
    simp only []
    have hshape : printStr e0.1 ++ (':' :: ' ' :: (printJson (.jarr (e0.2.map .jstr)) ++
        (printMembers ((e1 :: es).map subEntry) ++ '}' :: rest))) =
        '"' :: (escBody e0.1 ++ '"' :: (':' :: ' ' :: (printJson (.jarr (e0.2.map .jstr)) ++
          (',' :: ' ' :: (printStr e1.1 ++ (':' :: ' ' ::
            (printJson (.jarr (e1.2.map .jstr)) ++
              (printMembers (es.map subEntry) ++ '}' :: rest)))))))) := by
      rw [printStr]
      simp [printMembers, printMember, subEntry]
    rw [hshape]
    rw [skipSpaces_not_space '"' _ (by decide)]
    simp only []
    rw [parseStrBody_escBody]
    simp only [Option.bind_eq_bind, Option.some_bind]
    rw [skipSpaces_not_space ':' _ (by decide)]
    simp only []
    rw [parseVal_space]
    rw [parseVal_arr_strs e0.2 _ g (by omega)]
    simp only [Option.bind_eq_bind, Option.some_bind]
    rw [skipSpaces_not_space ',' _ (by decide)]
    simp only []
    obtain ⟨g2, rfl⟩ : ∃ g2, g = g2 + 1 := by
      have := subBudget_cons e1 es
      refine ⟨g - 1, ?_⟩
      omega
    rw [parseMembers_space]
    rw [ih e1 rest (g2 + 1) (by omega)]
    simp [subEntry]

theorem parseVal_subObj (es : List (Str × List Str)) (rest : Str) (f : Nat)
    (hf : subBudget es + 2 ≤ f) :
    parseVal f (printJson (.jobj (es.map subEntry)) ++ rest) =
      some (.jobj (dictOfPairs (es.map subEntry)), rest) := by
  obtain ⟨g, rfl⟩ : ∃ g, f = g + 1 := ⟨f - 1, by omega⟩
  cases es with
  | nil =>
    show parseVal (g + 1) ('{' :: '}' :: rest) = _
    rw [parseVal.eq_def]
    simp only []
    rw [skipSpaces_not_space '{' _ (by decide)]
    simp only []
    rw [skipSpaces_not_space '}' _ (by decide)]
    rfl
  | cons e0 es =>
    simp only [List.map_cons]
    rw [printJson]
    have hshape : ('{' :: (printMember (subEntry e0) ++ printMembers (es.map subEntry)) ++
        ['}']) ++ rest =
        '{' :: (printStr e0.1 ++ (':' :: ' ' :: (printJson (.jarr (e0.2.map .jstr)) ++
          (printMembers (es.map subEntry) ++ '}' :: rest)))) := by
      rw [printMember, subEntry]
      simp
    rw [hshape, parseVal.eq_def]
    simp only []
    rw [skipSpaces_not_space '{' _ (by decide)]
    simp only []
    have hq : skipSpaces (printStr e0.1 ++ (':' :: ' ' :: (printJson (.jarr (e0.2.map .jstr)) ++
        (printMembers (es.map subEntry) ++ '}' :: rest)))) =
        printStr e0.1 ++ (':' :: ' ' :: (printJson (.jarr (e0.2.map .jstr)) ++
          (printMembers (es.map subEntry) ++ '}' :: rest))) := by
      rw [printStr]
      simp only [List.cons_append]
      exact skipSpaces_not_space '"' _ (by decide)
    rw [hq]
    show Option.map (fun p => (JVal.jobj (dictOfPairs p.1), p.2))
        (parseMembers g (printStr e0.1 ++ (':' :: ' ' :: (printJson (.jarr (e0.2.map .jstr)) ++
          (printMembers (es.map subEntry) ++ '}' :: rest))))) =
      some (.jobj (dictOfPairs ((e0 :: es).map subEntry)), rest)
    rw [parseMembers_entries es e0 rest g (by omega)]
    rfl

theorem foldl_dictInsert_disjoint {κ β : Type} [DecidableEq κ] (ps : List (κ × β)) :
    ∀ acc : List (κ × β), (∀ k ∈ ps.map Prod.fst, k ∉ acc.map Prod.fst) →
      (ps.map Prod.fst).Nodup →
      ps.foldl (fun m p => dictInsert m p.1 p.2) acc = acc ++ ps := by
  induction ps with
  | nil => intro acc _ _; simp
  | cons p ps ih =>
    intro acc hdis hnd
    rw [List.foldl_cons]
    have hp : p.1 ∉ acc.map Prod.fst := hdis p.1 (by simp)
    have hins : dictInsert acc p.1 p.2 = acc ++ [p] := by
      unfold dictInsert
      rw [if_neg hp]
    rw [hins, ih (acc ++ [p]) ?_ ?_]
    · simp
    · intro k hk
      simp only [List.map_append, List.map_cons, List.map_nil, List.mem_append,
        List.mem_singleton]
      rintro (hka | hkp)
      · exact hdis k (by simp [hk]) hka
      · simp only [List.map_cons, List.nodup_cons] at hnd
        exact hnd.1 (hkp ▸ hk)
    · simp only [List.map_cons, List.nodup_cons] at hnd
      exact hnd.2

theorem dictOfPairs_nodup {κ β : Type} [DecidableEq κ] (ps : List (κ × β))
    (h : (ps.map Prod.fst).Nodup) : dictOfPairs ps = ps := by
  unfold dictOfPairs
  rw [foldl_dictInsert_disjoint ps [] (by simp) h]
  simp

theorem printStr_length_ge (s : Str) : 2 ≤ (printStr s).length := by
  rw [printStr]
  simp

theorem printElems_jstr_length_ge (ss : List Str) :
    ss.length ≤ (printElems (ss.map .jstr)).length := by
  induction ss with
  | nil => simp [printElems]
  | cons s ss ih =>
    rw [List.map_cons, printElems, printJson]
    have := printStr_length_ge s
    simp only [List.length_cons, List.length_append]
    omega

theorem printArr_jstr_length_ge (ss : List Str) :
    ss.length + 2 ≤ (printJson (.jarr (ss.map .jstr))).length := by
  cases ss with
  | nil => simp [printJson]
  | cons s ss =>
    rw [List.map_cons, printJson, printJson]
    have h1 := printStr_length_ge s
    have h2 := printElems_jstr_length_ge ss
    simp only [List.length_cons, List.length_append, List.length_singleton]
    omega

theorem printMember_length_ge (e : Str × List Str) :
    e.2.length + 4 ≤ (printMember (subEntry e)).length := by
  rw [subEntry, printMember]
  have h1 := printStr_length_ge e.1
  have h2 := printArr_jstr_length_ge e.2
  simp only [List.length_append, List.length_cons]
  omega

theorem printMembers_length_ge (es : List (Str × List Str)) :
    subBudget es ≤ (printMembers (es.map subEntry)).length := by
  induction es with
  | nil => simp [subBudget, printMembers]
  | cons e es ih =>
    rw [List.map_cons, printMembers, subBudget_cons]
    have := printMember_length_ge e
    simp only [List.length_cons, List.length_append]
    omega

theorem subBudget_le_printObj (es : List (Str × List Str)) :
    subBudget es ≤ (printJson (.jobj (es.map subEntry))).length := by
  cases es with
  | nil => simp [subBudget, printJson]
  | cons e es =>
    rw [List.map_cons, printJson, subBudget_cons]
    have h1 := printMember_length_ge e
    have h2 := printMembers_length_ge es
    simp only [List.length_cons, List.length_append, List.length_singleton]
    omega

theorem loads_dumps_subObj (es : List (Str × List Str))
    (hnd : ((es.map subEntry).map Prod.fst).Nodup) :
    loads (dumps (.jobj (es.map subEntry))) = some (.jobj (es.map subEntry)) := by
  unfold loads dumps
  show (match parseVal (2 * (printJson (.jobj (es.map subEntry))).length + 2)
      (printJson (.jobj (es.map subEntry))) with
    | some (v, rest) => if skipSpaces rest = [] then some v else none
    | none => none) = _
  have hlen := subBudget_le_printObj es
  have happ : printJson (.jobj (es.map subEntry)) =
      printJson (.jobj (es.map subEntry)) ++ [] := by simp
  rw [happ, parseVal_subObj es [] _ (by simp only [List.append_nil]; omega),
    dictOfPairs_nodup _ hnd]
  rfl

theorem subtasksToJson_eq (m : List (String × List String)) :
    subtasksToJson m =
      .jobj ((m.map (fun p => (p.1.data, p.2.map (fun s => s.data)))).map subEntry) := by
  unfold subtasksToJson
  rw [List.map_map]
  apply congrArg
  apply List.map_congr_left
  intro p _
  simp [subEntry, Function.comp, List.map_map]

theorem mapM_jstrAsString (ss : List Str) :
    (ss.map JVal.jstr).mapM jstrAsString = some (ss.map String.mk) := by
  induction ss with
  | nil => rfl
  | cons s ss ih =>
    rw [List.map_cons, List.mapM_cons, ih]
    rfl

theorem map_mk_data (l : List String) : l.map (fun s => String.mk s.data) = l := by
  have : ∀ s : String, String.mk s.data = s := fun s => rfl
  conv_rhs => rw [← List.map_id l]
  apply List.map_congr_left
  intro s _
  exact this s

theorem jobjAsSubtasks_subEntry (m : List (String × List String)) :
    jobjAsSubtasks (.jobj ((m.map (fun p => (p.1.data, p.2.map (fun s => s.data)))).map
      subEntry)) = some m := by
  induction m with
  | nil => rfl
  | cons p m ih =>
    rw [List.map_cons, List.map_cons]
    rw [jobjAsSubtasks] at ih ⊢
    rw [List.mapM_cons]
    have hf : (jarrAsStrings (subEntry (p.1.data, p.2.map (fun s => s.data))).2).map
        (fun l => (String.mk (subEntry (p.1.data, p.2.map (fun s => s.data))).1, l)) =
        some (p.1, p.2) := by
      show (jarrAsStrings (.jarr ((p.2.map (fun s => s.data)).map JVal.jstr))).map
          (fun l => (String.mk p.1.data, l)) = some (p.1, p.2)
      rw [show jarrAsStrings (.jarr ((p.2.map (fun s => s.data)).map JVal.jstr)) =
          ((p.2.map (fun s => s.data)).map JVal.jstr).mapM jstrAsString from rfl]
      rw [mapM_jstrAsString]
      rw [show ((p.2.map (fun s => s.data)).map String.mk) =
          p.2.map (fun s => String.mk s.data) from List.map_map ..]
      rw [map_mk_data]
      rfl
    rw [hf, ih]
    rfl

/-- C2: encoding a subtasks mapping (task name to ordered sub-item list)
to its stored JSON text with `json.dumps` and decoding that text with
`json.loads` yields an equal mapping, preserving entry order and each
task's sub-item order.  The hypothesis reflects that the encoded value is
a Python dict, whose keys are necessarily distinct. -/
theorem subtasks_encode_decode_round_trip (m : List (String × List String))
    (h : (m.map Prod.fst).Nodup) :
    decodeSubtasks (encodeSubtasks m) = some m := by
  unfold decodeSubtasks encodeSubtasks
  rw [subtasksToJson_eq]
  have hinj : Function.Injective String.data := by
    intro a b hab
    cases a
    cases b
    exact congrArg String.mk (by simpa using hab)
  have hnd : (((m.map (fun p => (p.1.data, p.2.map (fun s => s.data)))).map subEntry).map
      Prod.fst).Nodup := by
    have : ((m.map (fun p => (p.1.data, p.2.map (fun s => s.data)))).map subEntry).map
        Prod.fst = (m.map Prod.fst).map String.data := by
      simp [List.map_map, subEntry, Function.comp]
    rw [this]
    exact h.map (fun a b hab => hinj hab)
  rw [loads_dumps_subObj _ hnd]
  rw [Option.some_bind]
  exact jobjAsSubtasks_subEntry m

/-- Witness for C2 at a concrete two-task mapping. -/
theorem subtasks_encode_decode_round_trip_witness :
    decodeSubtasks (encodeSubtasks [("Stock Screens", defaultSubs), ("LTC", [])]) =
      some [("Stock Screens", defaultSubs), ("LTC", [])] :=
  subtasks_encode_decode_round_trip [("Stock Screens", defaultSubs), ("LTC", [])]
    (by decide)

/-! ## C4: graceful degradation on missing or undecodable stored values -/

/-- C4: a `subtasks` value that is absent, empty, or fails to decode is
read as the empty mapping; the renderer treats such a row exactly as if
its `subtasks` were the encoded empty mapping, and rendering of the
remaining rows goes on unchanged; `safe_json_pretty` substitutes `"{}"`
for the same inputs; and an absent or undecodable `incomplete_tasks`
value renders as the placeholder dash. -/
theorem reader_degrades_gracefully (r : PdfRow) (b : Option String)
    (hb : b = none ∨ b = some "" ∨ ∃ s, b = some s ∧ loads s = none) :
    pdfSubs b = .jobj [] ∧
    renderRow { r with subtasks := b } = renderRow { r with subtasks := some ("{}") } ∧
    (∀ (rest : List PdfRow) (w : Nat),
      generatePdf ({ r with subtasks := b } :: rest) w =
        generatePdf ({ r with subtasks := some ("{}") } :: rest) w) ∧
    safeJsonPretty b = "{}" ∧
    (∀ x : Option String, (x = none ∨ ∃ s, x = some s ∧ loads s = none) →
      incompleteLines x = [PdfElem.multiCell ("-")]) := by
  have hsubs : pdfSubs b = .jobj [] := by
    rcases hb with rfl | rfl | ⟨s, rfl, hl⟩
    · rfl
    · rfl
    · show (loads s).getD (JVal.jobj []) = JVal.jobj []
      rw [hl]
      rfl
  have hsubs2 : pdfSubs (some ("{}")) = .jobj [] := rfl
  have hrr : renderRow { r with subtasks := b } =
      renderRow { r with subtasks := some ("{}") } := by
    unfold renderRow
    cases hd : r.Date with
    | none => rfl
    | some ymd =>
      simp only []
      rw [hsubs, hsubs2]
  refine ⟨hsubs, hrr, ?_, ?_, ?_⟩
  · intro rest w
    unfold generatePdf
    rw [List.flatMap_cons, List.flatMap_cons, hrr]
  · rcases hb with rfl | rfl | ⟨s, rfl, hl⟩
    · rfl
    · rfl
    · by_cases hse : s = ""
      · subst hse
        rfl
      · unfold safeJsonPretty
        simp only [if_neg hse]
        rw [hl]
  · intro x hx
    rcases hx with rfl | ⟨s, rfl, hl⟩
    · rfl
    · unfold incompleteLines
      simp only [hl]

/-- Witness for C4 at a legacy plain-text `subtasks` value (the
pre-migration format) and a missing `incomplete_tasks` value. -/
theorem reader_degrades_gracefully_witness :
    pdfSubs (some ("Stock Screens: counted and recorded")) = .jobj [] ∧
    safeJsonPretty (some ("Stock Screens: counted and recorded")) = "{}" ∧
    renderRow { toPdfRow (mkSampleRow ("2025-07-14") ("Monday")) with
        subtasks := some ("Stock Screens: counted and recorded") } =
      renderRow { toPdfRow (mkSampleRow ("2025-07-14") ("Monday")) with
        subtasks := some ("{}") } ∧
    incompleteLines none = [PdfElem.multiCell ("-")] := by
  have h := reader_degrades_gracefully (toPdfRow (mkSampleRow ("2025-07-14") ("Monday")))
    (some ("Stock Screens: counted and recorded"))
    (Or.inr (Or.inr ⟨"Stock Screens: counted and recorded", rfl, by rfl⟩))
  exact ⟨h.1, h.2.2.2.1, h.2.1, h.2.2.2.2 none (Or.inl rfl)⟩

/-! ## C10: the stored `incomplete_tasks` column value -/

theorem joinComma_cons_head (x : String) (xs : List String) :
    ∃ t : String, joinComma (x :: xs) = x ++ t := by
  cases xs with
  | nil => exact ⟨"", (String.append_empty x).symm⟩
  | cons y ys =>
    refine ⟨", " ++ joinComma (y :: ys), ?_⟩
    rw [joinComma]
    · rw [String.append_assoc]
    · intro h
      exact absurd h (by simp)

theorem reprQuote_no_squote (s : Str) (h : ¬ '\'' ∈ s) : reprQuote s = '\'' := by
  unfold reprQuote
  rw [if_neg]
  intro hc
  exact h hc.1

theorem incompleteField_brace_squote (inc : List (String × String)) (q : String × String)
    (tl : List (String × String)) (hinc : inc = q :: tl) (hq : ¬ '\'' ∈ q.1.data) :
    ∃ T : Str, (incompleteField inc).data = '{' :: '\'' :: T := by
  subst hinc
  have hne : ¬ (q :: tl).isEmpty = true := by simp
  unfold incompleteField
  rw [if_neg hne]
  unfold pyReprStrDict
  obtain ⟨t, ht⟩ := joinComma_cons_head (pyReprStr q.1 ++ ": " ++ pyReprStr q.2)
    (tl.map (fun p => pyReprStr p.1 ++ ": " ++ pyReprStr p.2))
  rw [List.map_cons, ht]
  have hrepr : (pyReprStr q.1).data = '\'' :: (reprBody '\'' q.1.data ++ ['\'']) := by
    unfold pyReprStr
    rw [reprQuote_no_squote q.1.data hq]
    rfl
  refine ⟨(reprBody '\'' q.1.data ++ ['\'']) ++ ((": " ++ pyReprStr q.2).data ++ t.data) ++
    ("\x7d" : String).data, ?_⟩
  simp only [String.data_append, hrepr]
  simp

theorem loads_none_of_brace_squote (s : String) (T : Str)
    (h : s.data = '{' :: '\'' :: T) : loads s = none := by
  unfold loads
  rw [h]
  rfl

theorem foldl_processStep_inckeys (inp : String → TaskInput) (tasks : List String) :
    ∀ acc : List String × List (String × String) × List (String × List String),
      ∀ k ∈ (tasks.foldl (processStep inp) acc).2.1.map Prod.fst,
        k ∈ acc.2.1.map Prod.fst ∨ k ∈ tasks := by
  induction tasks with
  | nil => intro acc k hk; exact Or.inl hk
  | cons t ts ih =>
    intro acc k hk
    rw [List.foldl_cons] at hk
    rcases ih _ k hk with h | h
    · unfold processStep at h
      split at h
      · split at h
        · exact Or.inl h
        · rw [dictInsert_keys] at h
          split at h
          · exact Or.inl h
          · rcases List.mem_append.mp h with h2 | h2
            · exact Or.inl h2
            · simp at h2
              subst h2
              exact Or.inr (List.mem_cons_self _ _)
      · rw [dictInsert_keys] at h
        split at h
        · exact Or.inl h
        · rcases List.mem_append.mp h with h2 | h2
          · exact Or.inl h2
          · simp at h2
            subst h2
            exact Or.inr (List.mem_cons_self _ _)
    · exact Or.inr (List.mem_cons_of_mem _ h)

theorem schedule_tasks_no_quotes :
    ∀ p ∈ SCHEDULE, ∀ t ∈ p.2, ¬ '\'' ∈ t.data ∧ ¬ '"' ∈ t.data := by
  decide

/-- C10: for every submission built by the form over a scheduled day, the
stored `incomplete_tasks` value is the sentinel `"All completed"` when the
incomplete-tasks dict is empty and otherwise Python's `str()` rendering of
the dict (single-quoted); in both cases the value is non-empty and is not
decodable JSON (so it is in particular never a JSON-encoded mapping). -/
theorem incomplete_field_sentinel_or_repr (day : String) (tasks : List String)
    (inp : String → TaskInput) (hday : (day, tasks) ∈ SCHEDULE) :
    incompleteField (processTasks tasks inp).2.1 ≠ "" ∧
    loads (incompleteField (processTasks tasks inp).2.1) = none ∧
    ((processTasks tasks inp).2.1 = [] →
      incompleteField (processTasks tasks inp).2.1 = "All completed") ∧
    ((processTasks tasks inp).2.1 ≠ [] →
      incompleteField (processTasks tasks inp).2.1 =
        pyReprStrDict (processTasks tasks inp).2.1) := by
  cases hinc : (processTasks tasks inp).2.1 with
  | nil =>
    refine ⟨?_, ?_, fun _ => ?_, fun hne => absurd rfl hne⟩
    · show incompleteField [] ≠ ""
      decide
    · show loads (incompleteField []) = none
      rfl
    · rfl
  | cons q tl =>
    have hkmem : q.1 ∈ (processTasks tasks inp).2.1.map Prod.fst := by
      rw [hinc]
      simp
    have hktask : q.1 ∈ tasks := by
      rcases foldl_processStep_inckeys inp tasks ([], [], []) q.1 hkmem with h | h
      · simp at h
      · exact h
    have hq : ¬ '\'' ∈ q.1.data :=
      (schedule_tasks_no_quotes (day, tasks) hday q.1 hktask).1
    obtain ⟨T, hT⟩ := incompleteField_brace_squote _ q tl hinc hq
    rw [hinc] at hT
    refine ⟨?_, loads_none_of_brace_squote _ T hT, fun he => ?_, fun _ => ?_⟩
    · intro he
      rw [he] at hT
      exact absurd hT (by simp [String.data])
    · exact absurd he (by simp)
    · unfold incompleteField
      rw [if_neg (by simp)]

/-- Witness for C10 at a concrete Tuesday submission with every task not
done: the column value is the single-quoted `str()` rendering, non-empty
and not JSON. -/
theorem incomplete_field_sentinel_or_repr_witness :
    incompleteField (processTasks ["Vision", "RPM Punched", "RPM Stainless",
        "Organizing Materials"] (fun _ => ⟨false, fun _ => false, "no stock"⟩)).2.1 ≠ "" ∧
    loads (incompleteField (processTasks ["Vision", "RPM Punched", "RPM Stainless",
        "Organizing Materials"] (fun _ => ⟨false, fun _ => false, "no stock"⟩)).2.1) = none :=
  have h := incomplete_field_sentinel_or_repr ("Tuesday")
    ["Vision", "RPM Punched", "RPM Stainless", "Organizing Materials"]
    (fun _ => ⟨false, fun _ => false, "no stock"⟩) (by decide)
  ⟨h.1, h.2.1⟩

end DailyReport
